import Mathlib

/-!
Verification development for the Diablo backend's classification, ranking and
quiz-normalization pipeline.  The definitions below are a shallow embedding of
the Python source (backend/core/function_analyzer.py, backend/modules/scout.py,
backend/modules/learning.py, backend/server.py): regular expressions are
compiled by hand into total character-list scanners with the same matching
semantics (leftmost match, greedy / lazy quantifiers, non-overlapping
iteration), machine text is `List Char`, floats whose values are exact decimal
tenths are modelled as rationals, and calls to external services are modelled
as explicit oracle functions returning `Except`.
-/

namespace Diablo

/-! ### Character classes (ASCII models of the regex classes `\s`, `\d`, `\w`) -/

def isSpaceChar (c : Char) : Bool :=
  c = ' ' || c = '\t' || c = '\n' || c = '\r' || c = Char.ofNat 11 || c = Char.ofNat 12

def isDigitChar (c : Char) : Bool := '0' ≤ c && c ≤ '9'

def isWordChar (c : Char) : Bool :=
  ( 'a' ≤ c && c ≤ 'z') || ( 'A' ≤ c && c ≤ 'Z') || isDigitChar c || c = '_'

def lcChar (c : Char) : Char :=
  if 'A' ≤ c && c ≤ 'Z' then Char.ofNat (c.toNat + 32) else c

def ucChar (c : Char) : Char :=
  if 'a' ≤ c && c ≤ 'z' then Char.ofNat (c.toNat - 32) else c

def lowerStr (s : String) : String := String.mk (s.toList.map lcChar)

def upperStr (s : String) : String := String.mk (s.toList.map ucChar)

/-- Character comparison, optionally case-insensitive (`re.IGNORECASE`). -/
def chEq (ci : Bool) (x c : Char) : Bool :=
  if ci then lcChar x == lcChar c else x == c

/-! ### List-of-characters helpers -/

/-- Drop a literal from the front of `s` (case-insensitive when `ci`),
returning the remainder on success. -/
def dropLit (ci : Bool) : List Char → List Char → Option (List Char)
  | [], s => some s
  | _ :: _, [] => none
  | c :: cs, x :: xs => if chEq ci x c then dropLit ci cs xs else none

/-- Length of the maximal run of characters satisfying `p` at the front. -/
def countWhile (p : Char → Bool) : List Char → Nat
  | [] => 0
  | x :: xs => if p x then countWhile p xs + 1 else 0

def headIsWord : List Char → Bool
  | [] => false
  | x :: _ => isWordChar x

/-- Python `str.strip()` (ASCII-whitespace model). -/
def stripChars (s : List Char) : List Char :=
  ((s.dropWhile isSpaceChar).reverse.dropWhile isSpaceChar).reverse

/-- Boolean prefix test (case-sensitive). -/
def startsL : List Char → List Char → Bool
  | [], _ => true
  | _ :: _, [] => false
  | c :: cs, x :: xs => (c == x) && startsL cs xs

/-- Boolean substring test, Python's `needle in hay`. -/
def subStrB (needle : List Char) : List Char → Bool
  | [] => startsL needle []
  | x :: xs => startsL needle (x :: xs) || subStrB needle xs

/-! ### A tiny regex engine

The source's patterns only use literals, alternation, `\s*`, `\s+`, `\d+`,
`.*` (no DOTALL where it occurs), and `\b`; alternation is expanded to the
top level (sound for the boolean "does it match anywhere" questions the
source asks).  `matchSeq toks s prev` decides whether some prefix of `s`
matches the token sequence, where `prev` says whether the character just
before `s` is a word character (for `\b`). -/

inductive Tok where
  | ch (c : Char)
  | spaces0
  | spaces1
  | digits1
  | anystar
  | wordb
deriving Repr, DecidableEq

/-- All suffixes reachable by consuming zero or more whitespace characters,
paired with the is-word-character flag of the character preceding each. -/
def spaceDrops : List Char → Bool → List (List Char × Bool)
  | [], prev => [ ([], prev) ]
  | x :: xs, prev =>
    (x :: xs, prev) :: (if isSpaceChar x then spaceDrops xs (isWordChar x) else [])

def digitDrops : List Char → Bool → List (List Char × Bool)
  | [], prev => [ ([], prev) ]
  | x :: xs, prev =>
    (x :: xs, prev) :: (if isDigitChar x then digitDrops xs (isWordChar x) else [])

/-- Suffixes reachable by `.*` (any character except a newline). -/
def nnlDrops : List Char → Bool → List (List Char × Bool)
  | [], prev => [ ([], prev) ]
  | x :: xs, prev =>
    (x :: xs, prev) :: (if x ≠ '\n' then nnlDrops xs (isWordChar x) else [])

def matchSeq (ci : Bool) : List Tok → List Char → Bool → Bool
  | [], _, _ => true
  | .ch c :: ts, s, _ =>
    match s with
    | [] => false
    | x :: xs => chEq ci x c && matchSeq ci ts xs (isWordChar x)
  | .spaces0 :: ts, s, prev => (spaceDrops s prev).any (fun p => matchSeq ci ts p.1 p.2)
  | .spaces1 :: ts, s, _ =>
    match s with
    | [] => false
    | x :: xs => isSpaceChar x && (spaceDrops xs (isWordChar x)).any (fun p => matchSeq ci ts p.1 p.2)
  | .digits1 :: ts, s, _ =>
    match s with
    | [] => false
    | x :: xs => isDigitChar x && (digitDrops xs (isWordChar x)).any (fun p => matchSeq ci ts p.1 p.2)
  | .anystar :: ts, s, prev => (nnlDrops s prev).any (fun p => matchSeq ci ts p.1 p.2)
  | .wordb :: ts, s, prev => (prev != headIsWord s) && matchSeq ci ts s prev

/-- `re.search` as a boolean: does the token sequence match starting at some
position of `s`?  The flag tracks the word-ness of the preceding character. -/
def searchFrom (ci : Bool) (toks : List Tok) : List Char → Bool → Bool
  | [], prev => matchSeq ci toks [] prev
  | x :: xs, prev => matchSeq ci toks (x :: xs) prev || searchFrom ci toks xs (isWordChar x)

/-- Does any of the top-level alternatives match somewhere in `code`? -/
def reSearch (ci : Bool) (alts : List (List Tok)) (code : String) : Bool :=
  alts.any (fun a => searchFrom ci a code.toList false)

/-- A string as a sequence of literal-character tokens. -/
def lits (s : String) : List Tok := s.toList.map Tok.ch

/-! ### Pattern registries (function_analyzer.py)

Each Python regex is transcribed as its list of top-level alternatives. -/

def FUNCTION_TYPE_PATTERNS : List (List (List Tok) × String) :=
  [ -- Vault
    ([lits "deposit", lits "stake", lits "supply"], "deposit"),
    ([lits "withdraw", lits "unstake", lits "redeem"], "withdraw"),
    ([lits "mint"], "mint"),
    ([lits "burn"], "burn"),
    -- DEX
    ([lits "swap"], "swap"),
    ([lits "addLiquidity", lits "add_liquidity"], "add_liquidity"),
    ([lits "removeLiquidity", lits "remove_liquidity"], "remove_liquidity"),
    -- Lending
    ([lits "borrow"], "borrow"),
    ([lits "repay"], "repay"),
    ([lits "liquidat"], "liquidate"),
    ([lits "collateral"], "collateral"),
    -- Token
    ([lits "transfer", lits "send"], "transfer"),
    ([lits "approve"], "approve"),
    ([lits "claim", lits "harvest"], "claim"),
    ([lits "balance", lits "balances"], "accounting"),
    -- Admin
    ([lits "set", lits "update", lits "change"], "admin"),
    ([lits "pause", lits "unpause"], "pause"),
    ([lits "initialize", lits "init"], "initialize") ]

def PROTOCOL_TYPE_PATTERNS : List (List (List Tok) × String) :=
  [ ([lits "ERC4626", lits "convertToShares", lits "convertToAssets",
      lits "previewDeposit", lits "previewRedeem"], "Vault"),
    ([lits "vault", lits "Vault"], "Vault"),
    ([lits "borrow", lits "repay", lits "liquidat", lits "collateral",
      lits "healthFactor", lits "LTV"], "Lending"),
    ([lits "Aave", lits "Compound", lits "Euler"], "Lending"),
    -- `k\s*=` is [ch k, \s*, ch =]
    ([lits "swap", lits "getAmountOut", lits "getAmountIn", lits "reserves",
      [Tok.ch 'k', Tok.spaces0, Tok.ch '=']], "DEX"),
    ([lits "Uniswap", lits "Curve", lits "Balancer", lits "SushiSwap"], "DEX"),
    ([lits "addLiquidity", lits "removeLiquidity", lits "LP", lits "liquidity"], "DEX"),
    ([lits "stake", lits "unstake", lits "reward", lits "rewardRate", lits "earned"], "Staking"),
    -- `cross.*chain`
    ([lits "bridge", lits "cross" ++ [Tok.anystar] ++ lits "chain",
      lits "relay", lits "message"], "Bridge"),
    ([lits "oracle", lits "price", lits "latestRoundData", lits "chainlink",
      lits "getPrice"], "Oracle"),
    ([lits "ERC721", lits "ERC1155", lits "tokenURI", lits "ownerOf"], "NFT") ]

/-- `RISK_PATTERNS`: regex alternatives, tag, and search keywords.
`\bbalance(?:s|Of)?\b` is expanded to the three alternatives
`\bbalance\b | \bbalances\b | \bbalanceOf\b` (equivalent for search). -/
def RISK_PATTERNS : List (List (List Tok) × String × List String) :=
  [ -- Reentrancy
    ([lits ".call" ++ [Tok.ch (Char.ofNat 123)], lits ".call(",
      lits "(bool" ++ [Tok.spaces1] ++ lits "success"],
     ( "Reentrancy", [ "reentrancy", "external call" ])),
    ([lits "transferFrom", lits "safeTransferFrom", lits "transfer("],
     ( "Reentrancy", [ "token transfer", "reentrancy" ])),
    -- Oracle
    ([lits "latestRoundData", lits "getPrice", lits "oracle"],
     ( "Oracle", [ "oracle manipulation", "price" ])),
    ([lits "TWAP", lits "twap"], ( "Oracle", [ "TWAP", "time-weighted" ])),
    -- Math / Precision
    ([[Tok.ch '/', Tok.spaces0, Tok.digits1], lits "mulDiv",
      [Tok.ch '/', Tok.spaces0, Tok.ch '1', Tok.ch 'e']],
     ( "Precision", [ "precision loss", "rounding" ])),
    ([lits "unchecked" ++ [Tok.spaces0, Tok.ch (Char.ofNat 123)]],
     ( "Precision", [ "overflow", "underflow" ])),
    -- Flash loans
    ([lits "flashLoan", lits "flash" ++ [Tok.anystar] ++ lits "loan"],
     ( "Flash Loan", [ "flash loan" ])),
    -- Access control
    ([lits "onlyOwner", lits "require(msg.sender", lits "onlyRole"],
     ( "Access Control", [ "access control" ])),
    ([lits "Ownable", lits "AccessControl"], ( "Access Control", [ "access control" ])),
    -- Slippage / MEV
    ([lits "slippage", lits "deadline", lits "minAmount", lits "amountOutMin"],
     ( "Slippage", [ "slippage", "frontrunning" ])),
    -- Timestamp
    ([lits "block.timestamp", lits "now"], ( "Timestamp", [ "timestamp" ])),
    -- Delegatecall
    ([lits "delegatecall"], ( "Delegatecall", [ "delegatecall", "proxy" ])),
    -- Signature
    ([lits "ecrecover", lits "signature", lits "ECDSA"],
     ( "Signature", [ "signature", "replay" ])),
    -- Accounting / balance tracking
    ([[Tok.wordb] ++ lits "balance" ++ [Tok.wordb],
      [Tok.wordb] ++ lits "balances" ++ [Tok.wordb],
      [Tok.wordb] ++ lits "balanceOf" ++ [Tok.wordb],
      lits "_balances" ++ [Tok.wordb],
      lits "userBalance", lits "totalBalance", lits "pendingBalance"],
     ( "Balance Accounting",
       [ "balance accounting", "state sync", "double claim", "incorrect accounting" ])),
    ([lits "shareBalance", lits "creatorBalance", lits "ownerBalance",
      lits "claimable", lits "accrued", lits "pending"],
     ( "Balance Accounting",
       [ "claim accounting", "reward accounting", "balance desync" ])),
    ([lits "totalSupply", lits "totalAssets", lits "convertToShares",
      lits "convertToAssets"],
     ( "Balance Accounting",
       [ "share accounting", "asset accounting", "vault accounting" ])) ]

/-! ### FunctionAnalyzer.analyze -/

/-- Match of `function\s+(\w+)` at the current position, returning the
captured identifier. -/
def fnMatchAt (s : List Char) : Option String :=
  match dropLit false ( "function".toList) s with
  | none => none
  | some r =>
    let k := countWhile isSpaceChar r
    if k = 0 then none
    else
      let w := (r.drop k).takeWhile isWordChar
      if w.isEmpty then none else some (String.mk w)

/-- `re.search`: first (leftmost) match result over all start positions. -/
def scanFirst {α : Type} (f : List Char → Option α) : List Char → Option α
  | [] => f []
  | x :: xs =>
    match f (x :: xs) with
    | some a => some a
    | none => scanFirst f xs

/-- Match of `(\w+)\s*\.\s*(\w+)\s*\(` at the current position, returning
the two captures and the remainder after the match. -/
def extCallAt (s : List Char) : Option ((String × String) × List Char) :=
  let w1 := s.takeWhile isWordChar
  if w1.isEmpty then none
  else
    let r1 := s.drop w1.length
    let r2 := r1.drop (countWhile isSpaceChar r1)
    match r2 with
    | '.' :: r3 =>
      let r4 := r3.drop (countWhile isSpaceChar r3)
      let w2 := r4.takeWhile isWordChar
      if w2.isEmpty then none
      else
        let r5 := r4.drop w2.length
        let r6 := r5.drop (countWhile isSpaceChar r5)
        match r6 with
        | '(' :: r7 => some ((String.mk w1, String.mk w2), r7)
        | _ => none
    | _ => none

/-- Fuelled worker for `re.finditer`: try a match at each position, emit the
result and resume after the match (non-overlapping), else advance one
character.  Fuel `s.length` always suffices because every step strictly
shortens the text. -/
def scanIterF {α : Type} (f : List Char → Option (α × List Char)) : Nat → List Char → List α
  | _, [] => []
  | 0, _ :: _ => []
  | fuel + 1, x :: xs =>
    match f (x :: xs) with
    | some (a, rest) => a :: scanIterF f fuel (xs.drop (xs.length - rest.length))
    | none => scanIterF f fuel xs

def scanIter {α : Type} (f : List Char → Option (α × List Char)) (s : List Char) : List α :=
  scanIterF f s.length s

/-- Shared shape of the Python "append label for each matching row" loops. -/
def matchedLabels {β α : Type} (tbl : List β) (keep : β → Bool) (lab : β → α) : List α :=
  tbl.foldl (fun acc b => if keep b then acc ++ [lab b] else acc) []

def functionNameOf (code : String) : String :=
  match scanFirst fnMatchAt code.toList with
  | some w => w
  | none => ""

/-- First-match-wins over an ordered (pattern, label) table (`break` loop). -/
def firstLabel (tbl : List (List (List Tok) × String)) (code : String) : String :=
  match tbl.find? (fun row => reSearch true row.1 code) with
  | some row => row.2
  | none => ""

def functionTypeOf (code : String) : String := firstLabel FUNCTION_TYPE_PATTERNS code

def protocolTypeOf (code : String) : String := firstLabel PROTOCOL_TYPE_PATTERNS code

def riskRowMatches (code : String) (row : List (List Tok) × String × List String) : Bool :=
  reSearch true row.1 code

def riskPatternsOf (code : String) : List String :=
  matchedLabels RISK_PATTERNS (riskRowMatches code) (fun row => row.2.1)

def EXTERNAL_DENYLIST : List String := [ "msg", "block", "tx", "abi", "require", "assert" ]

def externalCallsOf (code : String) : List String :=
  (((scanIter extCallAt code.toList).filter
      (fun p => ! (EXTERNAL_DENYLIST.contains p.1))).map
    (fun p => p.1 ++ "." ++ p.2)).take 10

/-- The confidence accumulation at the end of `analyze` (decimal tenths as
exact rationals). -/
def confidenceOf (code : String) : ℚ :=
  let c0 : ℚ := 0
  let c1 := if functionNameOf code ≠ "" then c0 + 1/10 else c0
  let c2 := if functionTypeOf code ≠ "" then c1 + 2/10 else c1
  let c3 := if protocolTypeOf code ≠ "" then c2 + 3/10 else c2
  let c4 := if riskPatternsOf code ≠ [] then
      c3 + min (((riskPatternsOf code).length : ℚ) * (1/10)) (3/10) else c3
  let c5 := if externalCallsOf code ≠ [] then c4 + 1/10 else c4
  min c5 1

/-- The fields of `CodeContext` used by the claims (the remaining fields —
state_changes and the suggestion lists — depend on Python set iteration
order and are not referenced by any claim). -/
structure CodeContext where
  function_name : String := ""
  function_type : String := ""
  protocol_type : String := ""
  risk_patterns : List String := []
  external_calls : List String := []
  confidence : ℚ := 0
deriving Repr, DecidableEq

def analyze (code : String) : CodeContext :=
  { function_name := functionNameOf code
    function_type := functionTypeOf code
    protocol_type := protocolTypeOf code
    risk_patterns := riskPatternsOf code
    external_calls := externalCallsOf code
    confidence := confidenceOf code }

/-! ### LearningModule._normalize_correct_index (learning.py) -/

/-- Match of `(?:answer|correct)\s*[:\-]\s*([A-D])` (IGNORECASE) at the
current position, returning the letter mapped to an index (A=0). -/
def hintAt (s : List Char) : Option Nat :=
  let afterKey :=
    match dropLit true ( "answer".toList) s with
    | some r => some r
    | none => dropLit true ( "correct".toList) s
  match afterKey with
  | none => none
  | some r =>
    match r.dropWhile isSpaceChar with
    | c :: r3 =>
      if c = ':' || c = '-' then
        match r3.dropWhile isSpaceChar with
        | d :: _ =>
          let u := ucChar d
          if 'A' ≤ u && u ≤ 'D' then some (u.toNat - 'A'.toNat) else none
        | [] => none
      else none
    | [] => none

/-- The first `Answer: <letter>` hint in `f"{block_html} {explanation_html}"`. -/
def letterHint (block_html explanation_html : String) : Option Nat :=
  scanFirst hintAt (block_html ++ " " ++ explanation_html).toList

/-- The shared fall-through of `_normalize_correct_index`: 1-based
conversion, then 0-based pass-through, then last-resort clamp. -/
def normFallback (raw_correct : Int) (options_count : Nat) : Int :=
  if 1 ≤ raw_correct ∧ raw_correct ≤ (options_count : Int) then raw_correct - 1
  else if 0 ≤ raw_correct ∧ raw_correct < (options_count : Int) then raw_correct
  else max 0 (min raw_correct ((options_count : Int) - 1))

def normalize_correct_index (raw_correct : Int) (options_count : Nat)
    (block_html explanation_html : String) : Int :=
  if options_count ≤ 0 then 0
  else
    match letterHint block_html explanation_html with
    | some idx =>
      if idx < options_count then (idx : Int)
      else normFallback raw_correct options_count
    | none => normFallback raw_correct options_count

/-! ### LearningModule._parse_quiz (learning.py) -/

structure QuizQuestion where
  question : String
  code_snippet : String
  options : List String
  correct_index : Int
  explanation : String
deriving Repr, DecidableEq

/-- Numeric value of a `(\d+)` capture as CPython's `int()` evaluates it:
`none` models the `ValueError` raised on a string that is not a non-empty
digit string, and also the `ValueError: Exceeds the limit ... for integer
string conversion` raised when the string is longer than the default
`sys.get_int_max_str_digits()` limit of 4300 digits (the CVE-2020-10735
mitigation, active on every interpreter this codebase runs on). -/
def digitsToInt? (d : List Char) : Option Int :=
  if d ≠ [] ∧ d.all isDigitChar ∧ d.length ≤ 4300 then
    some (Int.ofNat (d.foldl (fun acc c => acc * 10 + (c.toNat - '0'.toNat)) 0))
  else none

/-- `data-correct="(\d+)"` tried at the current position inside the
`[^>]*...[^>]*` region; returns the digit capture. -/
def tryMarker (s : List Char) : Option (List Char) :=
  match dropLit false ( "data-correct=\"".toList) s with
  | none => none
  | some r =>
    let d := r.takeWhile isDigitChar
    if d.isEmpty then none
    else
      match r.drop d.length with
      | '"' :: _ => some d
      | _ => none

/-- The greedy first `[^>]*` backtracks from the right, so the match uses
the last position in the region where `data-correct="(\d+)"` succeeds:
scan left to right, a later success overwriting an earlier one (written
tail-recursively so that evaluation is iterative even on very long
regions). -/
def findLastMarkerAux (acc : Option (List Char)) : List Char → Option (List Char)
  | [] =>
    match tryMarker [] with
    | some d => some d
    | none => acc
  | x :: xs =>
    match tryMarker (x :: xs) with
    | some d => findLastMarkerAux (some d) xs
    | none => findLastMarkerAux acc xs

def findLastMarker (region : List Char) : Option (List Char) :=
  findLastMarkerAux none region

/-- The lookahead `(?=<div\s+class="quiz-question"|$)`; `$` matches at the
end of input or just before a final newline. -/
def lookOk (t : List Char) : Bool :=
  (match dropLit false ( "<div".toList) t with
   | some u =>
     let k := countWhile isSpaceChar u
     decide (1 ≤ k) && (dropLit false ( "class=\"quiz-question\"".toList) (u.drop k)).isSome
   | none => false)
  || t.isEmpty || (t == [ '\n' ])

/-- Greedy `\s*` before the lookahead: consume the most whitespace whose
remainder satisfies the lookahead. -/
def bestSpaces (r : List Char) : Nat → Option (List Char)
  | 0 => if lookOk r then some r else none
  | j + 1 => if lookOk (r.drop (j + 1)) then some (r.drop (j + 1)) else bestSpaces r j

/-- `</div>\s*(?=...)` tried at the current position; returns the remainder
after the consumed whitespace. -/
def tryBlockClose (s : List Char) : Option (List Char) :=
  match dropLit false ( "</div>".toList) s with
  | none => none
  | some r => bestSpaces r (countWhile isSpaceChar r)

/-- The lazy `(.*?)` (DOTALL) of the question-block regex: shortest body
such that `</div>\s*(?=...)` matches right after it. -/
def lazyBody : List Char → Option (List Char × List Char)
  | [] => (tryBlockClose []).map (fun r => ([], r))
  | x :: xs =>
    match tryBlockClose (x :: xs) with
    | some r => some ([], r)
    | none => (lazyBody xs).map (fun p => (x :: p.1, p.2))

/-- One attempted match of the question-block regex
`<div\s+class="quiz-question"[^>]*data-correct="(\d+)"[^>]*>(.*?)</div>\s*(?=<div\s+class="quiz-question"|$)`
at the current position; returns ((digits, body), remainder). -/
def blockMatchAt (s : List Char) : Option ((List Char × List Char) × List Char) :=
  match dropLit false ( "<div".toList) s with
  | none => none
  | some r1 =>
    let k := countWhile isSpaceChar r1
    if k = 0 then none
    else
      match dropLit false ( "class=\"quiz-question\"".toList) (r1.drop k) with
      | none => none
      | some r3 =>
        let region := r3.takeWhile (· ≠ '>')
        match r3.drop region.length with
        | '>' :: r4 =>
          match findLastMarker region with
          | none => none
          | some d =>
            match lazyBody r4 with
            | none => none
            | some (body, rest) => some ((d, body), rest)
        | _ => none

/-- First match of a literal-open/lazy-close regex such as
`<div\s+class="CLS"[^>]*>(.*?)</div>`: the open tag part. -/
def divOpen (cls : List Char) (s : List Char) : Option (List Char) :=
  match dropLit false ( "<div".toList) s with
  | none => none
  | some r1 =>
    let k := countWhile isSpaceChar r1
    if k = 0 then none
    else
      match dropLit false (( "class=\"".toList) ++ cls ++ [ '"' ]) (r1.drop k) with
      | none => none
      | some r2 =>
        let m := countWhile (· ≠ '>') r2
        match r2.drop m with
        | '>' :: r3 => some r3
        | _ => none

/-- Lazy `(.*?)` (DOTALL) up to the first position where one of the literal
closers matches; returns (body, remainder-after-closer). -/
def lazyUntil (closes : List (List Char)) : List Char → Option (List Char × List Char)
  | [] =>
    match closes.findSome? (fun c => dropLit false c []) with
    | some r => some ([], r)
    | none => none
  | x :: xs =>
    match closes.findSome? (fun c => dropLit false c (x :: xs)) with
    | some r => some ([], r)
    | none => (lazyUntil closes xs).map (fun p => (x :: p.1, p.2))

/-- `<div\s+class="quiz-option"[^>]*>(.*?)</div>` at the current position. -/
def optionAt (s : List Char) : Option (List Char × List Char) :=
  match divOpen ( "quiz-option".toList) s with
  | none => none
  | some r => lazyUntil [ "</div>".toList] r

/-- `<div\s+class="quiz-explanation"[^>]*>(.*?)</div>` at the current position. -/
def explAt (s : List Char) : Option (List Char × List Char) :=
  match divOpen ( "quiz-explanation".toList) s with
  | none => none
  | some r => lazyUntil [ "</div>".toList] r

/-- `<(?:p|h4)[^>]*>(.*?)</(?:p|h4)>` at the current position. -/
def qTextAt (s : List Char) : Option (List Char × List Char) :=
  match s with
  | '<' :: r =>
    let afterTag : Option (List Char) :=
      match r with
      | 'p' :: r2 => some r2
      | 'h' :: '4' :: r2 => some r2
      | _ => none
    match afterTag with
    | none => none
    | some r2 =>
      let m := countWhile (· ≠ '>') r2
      match r2.drop m with
      | '>' :: r3 => lazyUntil [ "</p>".toList, "</h4>".toList] r3
      | _ => none
  | _ => none

/-- `<pre><code[^>]*>(.*?)</code></pre>` at the current position. -/
def codeAt (s : List Char) : Option (List Char × List Char) :=
  match dropLit false ( "<pre><code".toList) s with
  | none => none
  | some r =>
    let m := countWhile (· ≠ '>') r
    match r.drop m with
    | '>' :: r2 => lazyUntil [ "</code></pre>".toList] r2
    | _ => none

/-- Build one `QuizQuestion` from a matched block body; `none` when the
block has no parsed options (the `if options:` guard drops it). -/
def mkQuestion (raw_correct : Int) (block : List Char) : Option QuizQuestion :=
  let question :=
    match scanFirst qTextAt block with
    | some p => String.mk (stripChars p.1)
    | none => "Question"
  let code :=
    match scanFirst codeAt block with
    | some p => String.mk (stripChars p.1)
    | none => ""
  let options := (scanIter optionAt block).map (fun b => String.mk (stripChars b))
  match options with
  | [] => none
  | _ :: _ =>
    let explanation :=
      match scanFirst explAt block with
      | some p => String.mk (stripChars p.1)
      | none => ""
    some
      { question := question
        code_snippet := code
        options := options
        correct_index :=
          normalize_correct_index raw_correct options.length (String.mk block) explanation
        explanation := explanation }

/-- The per-block loop of `_parse_quiz`; the only operation that could fail
is parsing the `(\d+)` capture as an integer, modelled in `Except`. -/
def quizFromBlocks : List (List Char × List Char) → Except String (List QuizQuestion)
  | [] => .ok []
  | (d, block) :: rest =>
    match digitsToInt? d with
    | none => .error "ValueError in int(match.group(1))"
    | some raw =>
      match quizFromBlocks rest with
      | .error e => .error e
      | .ok tail =>
        .ok (match mkQuestion raw block with
             | some q => q :: tail
             | none => tail)

def parse_quiz (html : String) : Except String (List QuizQuestion) :=
  quizFromBlocks (scanIter (fun s => blockMatchAt s) html.toList)

/-! ### ScoutModule._parse_contract: ERC detection (scout.py) -/

/-- `_ERC_PATTERNS` (matched case-sensitively: `re.search(p, code)` with no
flags).  `transfer\s*\(` and `approve\s*\(` use `\s*`. -/
def ERC_PATTERNS : List (String × List (List Tok)) :=
  [ ( "ERC20",
      [lits "totalSupply", lits "balanceOf",
       lits "transfer" ++ [Tok.spaces0, Tok.ch '('],
       lits "approve" ++ [Tok.spaces0, Tok.ch '('],
       lits "transferFrom"]),
    ( "ERC721",
      [lits "ownerOf", lits "safeTransferFrom", lits "tokenURI", lits "ERC721"]),
    ( "ERC1155",
      [lits "balanceOfBatch", lits "safeBatchTransferFrom", lits "ERC1155"]),
    ( "ERC4626",
      [lits "convertToShares", lits "convertToAssets", lits "maxDeposit",
       lits "previewMint"]) ]

def ercMatchCount (pats : List (List Tok)) (code : String) : Nat :=
  pats.countP (fun p => reSearch false [p] code)

/-- The ERC-detection loop of `_parse_contract`: a standard is appended iff
at least 2 of its sub-patterns match. -/
def ercs_detected (code : String) : List String :=
  matchedLabels ERC_PATTERNS (fun row => 2 ≤ ercMatchCount row.2 code) (fun row => row.1)

/-! ### ScoutModule._postprocess_report_html (scout.py) -/

/-- Fuelled worker for `re.sub`: at each position try a match; on success
emit the replacement and resume after the match, else keep the character. -/
def replaceScanF (f : List Char → Option (List Char × List Char)) :
    Nat → List Char → List Char
  | _, [] => []
  | 0, s => s
  | fuel + 1, x :: xs =>
    match f (x :: xs) with
    | some (rep, rest) => rep ++ replaceScanF f fuel (xs.drop (xs.length - rest.length))
    | none => x :: replaceScanF f fuel xs

def replaceScan (f : List Char → Option (List Char × List Char)) (s : List Char) :
    List Char :=
  replaceScanF f s.length s

/-- Match of `\sstyle=Q[^Q]*Q` (IGNORECASE) at the current position, where
`Q` is the quote character; the replacement is empty. -/
def styleAt (q : Char) (s : List Char) : Option (List Char × List Char) :=
  match s with
  | [] => none
  | x :: xs =>
    if isSpaceChar x then
      match dropLit true ( "style=".toList) xs with
      | none => none
      | some r =>
        match r with
        | c :: r2 =>
          if c = q then
            let k := countWhile (· ≠ q) r2
            match r2.drop k with
            | c2 :: rest => if c2 = q then some ([], rest) else none
            | [] => none
          else none
        | [] => none
    else none

/-- Match of `<pre[^>]*>\s*<code[^>]*>\s*</code>\s*</pre>`
(IGNORECASE, DOTALL) at the current position, replaced by the fixed
report placeholder. -/
def emptyCodeAt (s : List Char) : Option (List Char × List Char) :=
  match dropLit true ( "<pre".toList) s with
  | none => none
  | some r1 =>
    match r1.drop (countWhile (· ≠ '>') r1) with
    | '>' :: r2 =>
      match dropLit true ( "<code".toList) (r2.dropWhile isSpaceChar) with
      | none => none
      | some r3 =>
        match r3.drop (countWhile (· ≠ '>') r3) with
        | '>' :: r4 =>
          match dropLit true ( "</code>".toList) (r4.dropWhile isSpaceChar) with
          | none => none
          | some r5 =>
            match dropLit true ( "</pre>".toList) (r5.dropWhile isSpaceChar) with
            | none => none
            | some r6 =>
              some ( "<pre><code>// Patch/example unavailable in generated output.</code></pre>".toList, r6)
        | _ => none
    | _ => none

/-- Python `html.escape` (with quotes), character by character. -/
def escapeChar (c : Char) : List Char :=
  if c = '&' then "&amp;".toList
  else if c = '<' then "&lt;".toList
  else if c = '>' then "&gt;".toList
  else if c = '"' then "&quot;".toList
  else if c = Char.ofNat 39 then "&#x27;".toList
  else [c]

def escapeHtml (s : String) : String :=
  String.mk (s.toList.foldr (fun c acc => escapeChar c ++ acc) [])

/-- One entry of the `matched` list handed to the report post-processor
(the dict with keys id/title/firm/protocol/impact/link). -/
structure MatchedRef where
  id : String := ""
  title : String := ""
  firm : String := ""
  protocol : String := ""
  impact : String := ""
  link : String := ""
deriving Repr, DecidableEq

def evidenceRow (f : MatchedRef) : String :=
  "<tr>" ++ "<td>" ++ escapeHtml f.id ++ "</td>"
    ++ "<td>" ++ escapeHtml f.title ++ "</td>"
    ++ "<td>" ++ escapeHtml f.firm ++ "</td>"
    ++ "<td>" ++ escapeHtml f.protocol ++ "</td>"
    ++ "<td>" ++ escapeHtml f.impact ++ "</td>"
    ++ "</tr>"

/-- `"".join(rows)`. -/
def concatRows : List String → String
  | [] => ""
  | r :: rs => r ++ concatRows rs

def evidenceSectionHtml (matched : List MatchedRef) : String :=
  "<h2>Evidence Map</h2>"
    ++ "<p>Use citation IDs (for example, [F1]) to trace each claim to a real finding.</p>"
    ++ "<table><thead><tr><th>ID</th><th>Finding</th><th>Firm</th>"
    ++ "<th>Protocol</th><th>Severity</th></tr></thead>"
    ++ "<tbody>" ++ concatRows ((matched.take 8).map evidenceRow) ++ "</tbody></table>"

/-- The three substitution passes of `_postprocess_report_html`, in source
order: double-quoted styles, single-quoted styles, empty code blocks. -/
def reportBodyPass (html : String) : String :=
  let l1 := replaceScan (styleAt '"') html.toList
  let l2 := replaceScan (styleAt (Char.ofNat 39)) l1
  String.mk (replaceScan emptyCodeAt l2)

def postprocess_report_html (html : String) (matched : List MatchedRef) : String :=
  let out := reportBodyPass html
  if matched.isEmpty then out else out ++ evidenceSectionHtml matched

/-! ### server.py: relevance scoring and ranking -/

/-- A Solodit finding (the fields the embedded operations read). -/
structure Finding where
  title : String := ""
  impact : String := ""
  content : String := ""
  firm_name : String := ""
  protocol_name : String := ""
  tags : List String := []
  slug : String := ""
deriving Repr, DecidableEq

def ACCOUNTING_TOKENS : List String :=
  [ "accounting", "claim", "double", "share", "totalassets", "totalsupply", "rounding" ]

def BALANCE_SELECTIONS : List String := [ "balance", "balances", "_balances" ]

/-- `_pitfall_relevance_score` transcribed with its sequential `score +=`
accumulation. -/
def pitfall_relevance_score (finding : Finding) (sel_name : String)
    (ctx : CodeContext) : Int :=
  let title := (lowerStr finding.title).toList
  let content := (lowerStr finding.content).toList
  let tags := (lowerStr (String.intercalate " " finding.tags)).toList
  let haystack := title ++ ( " ".toList) ++ tags ++ ( " ".toList) ++ content.take 1200
  let score : Int := 0
  let sel := (lowerStr sel_name).toList
  let score := if sel_name ≠ "" ∧ subStrB sel title then score + 80 else score
  let score := if sel_name ≠ "" ∧ subStrB sel tags then score + 50 else score
  let score := if sel_name ≠ "" ∧ subStrB sel haystack then score + 30 else score
  let score :=
    if sel_name ≠ "" ∧ BALANCE_SELECTIONS.contains (String.mk sel)
        ∧ ACCOUNTING_TOKENS.any (fun t => subStrB t.toList haystack) then
      score + 35
    else score
  let score := (ctx.risk_patterns.take 3).foldl
    (fun acc risk => if subStrB (lowerStr risk).toList haystack then acc + 20 else acc) score
  let sev := upperStr finding.impact
  if sev = "HIGH" then score + 8
  else if sev = "MEDIUM" then score + 4
  else score

/-- Claim C5's reading of the relevance score, written as one closed-form
sum (`relevance_score_spec`, to be compared with the accumulating
`pitfall_relevance_score` transcribed from the source). -/
def relevance_score_spec (finding : Finding) (sel_name : String)
    (ctx : CodeContext) : Int :=
  let title := (lowerStr finding.title).toList
  let content := (lowerStr finding.content).toList
  let tags := (lowerStr (String.intercalate " " finding.tags)).toList
  let haystack := title ++ ( " ".toList) ++ tags ++ ( " ".toList) ++ content.take 1200
  let sel := (lowerStr sel_name).toList
  (if sel_name ≠ "" ∧ subStrB sel title then 80 else 0)
    + (if sel_name ≠ "" ∧ subStrB sel tags then 50 else 0)
    + (if sel_name ≠ "" ∧ subStrB sel haystack then 30 else 0)
    + (if sel_name ≠ "" ∧ BALANCE_SELECTIONS.contains (String.mk sel)
          ∧ ACCOUNTING_TOKENS.any (fun t => subStrB t.toList haystack) then 35 else 0)
    + 20 * (((ctx.risk_patterns.take 3).countP
          (fun risk => subStrB (lowerStr risk).toList haystack) : Int))
    + (if upperStr finding.impact = "HIGH" then 8
       else if upperStr finding.impact = "MEDIUM" then 4 else 0)

/-- Stable insertion for descending-by-score order: a later element goes
after every earlier element with a score ≥ its own. -/
def insertScoreDesc {α : Type} (x : Int × α) : List (Int × α) → List (Int × α)
  | [] => [x]
  | y :: ys => if y.1 < x.1 then x :: y :: ys else y :: insertScoreDesc x ys

/-- `scored.sort(key=lambda it: it[0], reverse=True)`: Python's sort is a
stable descending sort; any stable descending sort computes the same list
(uniqueness is proved below), so it is modelled by stable insertion. -/
def sortScoreDesc {α : Type} (l : List (Int × α)) : List (Int × α) :=
  l.foldl (fun acc x => insertScoreDesc x acc) []

/-- The ranking step of the pitfall / fix-draft flows applied to the
deduplicated findings in first-seen order. -/
def pitfallRank (findings : List Finding) (sel_name : String) (ctx : CodeContext) :
    List (Int × Finding) :=
  sortScoreDesc (findings.map (fun f => (pitfall_relevance_score f sel_name ctx, f)))

/-! ### Per-query error handling (scout.py generate_report, server.py pitfall) -/

/-- The scout cross-reference loop: each query is sent to the findings
client; a failing query is caught and skipped; results are deduplicated by
title in first-seen order. -/
def scoutDedup : List Finding → List String → List Finding → (List Finding × List String)
  | [], seen, acc => (acc, seen)
  | f :: fs, seen, acc =>
    if seen.contains f.title then scoutDedup fs seen acc
    else scoutDedup fs (f.title :: seen) (acc ++ [f])

def scoutCollectAux (client : String → Except Unit (List Finding)) :
    List String → List String → List Finding → List Finding
  | [], _, acc => acc
  | q :: qs, seen, acc =>
    match client q with
    | .error _ => scoutCollectAux client qs seen acc
    | .ok fs =>
      let p := scoutDedup fs seen acc
      scoutCollectAux client qs p.2 p.1

/-- `generate_report`: `for query in unique_queries[:8]: try ... except`. -/
def scout_collect (client : String → Except Unit (List Finding))
    (unique_queries : List String) : List Finding :=
  scoutCollectAux client (unique_queries.take 8) [] []

/-- The `or`-key used by pitfall/fix-draft dedup: slug when non-empty,
else title. -/
def findingKey (f : Finding) : String := if f.slug ≠ "" then f.slug else f.title

def pitfallDedup (sel_name : String) (ctx : CodeContext) :
    List Finding → List String → List (Int × Finding) → (List (Int × Finding) × List String)
  | [], seen, scored => (scored, seen)
  | f :: fs, seen, scored =>
    if seen.contains (findingKey f) then pitfallDedup sel_name ctx fs seen scored
    else
      pitfallDedup sel_name ctx fs (findingKey f :: seen)
        (scored ++ [(pitfall_relevance_score f sel_name ctx, f)])

def pitfallCollectAux (client : String → Except Unit (List Finding))
    (sel_name : String) (ctx : CodeContext) :
    List String → List String → List (Int × Finding) → List (Int × Finding)
  | [], _, scored => scored
  | q :: qs, seen, scored =>
    match client q with
    | .error _ => pitfallCollectAux client sel_name ctx qs seen scored
    | .ok fs =>
      let p := pitfallDedup sel_name ctx fs seen scored
      pitfallCollectAux client sel_name ctx qs p.2 p.1

/-- The pitfall endpoint's query loop: `for query in unique_queries[:6]:
try ... except ... continue`, scoring and deduplicating by slug-or-title. -/
def pitfall_collect (client : String → Except Unit (List Finding))
    (unique_queries : List String) (sel_name : String) (ctx : CodeContext) :
    List (Int × Finding) :=
  pitfallCollectAux client sel_name ctx (unique_queries.take 6) [] []

/-! ### Concrete data for the witness theorems -/

def wFinding1 : Finding := { title := "t1", impact := "HIGH", slug := "s1" }

def wFinding2 : Finding := { title := "t2", impact := "HIGH", slug := "s2" }

def wCtx : CodeContext := {}

def wMatched : MatchedRef :=
  { id := "F1", title := "Issue A", firm := "FirmX", protocol := "ProtoY", impact := "HIGH" }

def wQuizHtml : String :=
  "<div class=\"quiz-question\" data-correct=\"1\"><p>Q</p><div class=\"quiz-option\">A</div></div>"

def wQuizQuestion : QuizQuestion :=
  { question := "Q", code_snippet := "", options := [ "A" ], correct_index := 0,
    explanation := "" }

/-- A single-quote (apostrophe) character as a string. -/
def sQuote : String := String.mk [Char.ofNat 39]

/-- 4301 digits: one more than CPython's default integer-string-conversion
limit of 4300 digits. -/
def bigDigits : List Char := List.replicate 4301 '1'

/-- A well-formed quiz block whose `data-correct` capture exceeds the
4300-digit limit, so `int(match.group(1))` raises `ValueError`. -/
def overLimitQuizHtml : String :=
  "<div class=\"quiz-question\" data-correct=\"" ++ String.mk bigDigits ++ "\">x</div>"

/-! ## Theorems -/

/-! ### Generic helper lemmas -/

theorem matchedLabels_eq {β α : Type} (tbl : List β) (keep : β → Bool) (lab : β → α) :
    matchedLabels tbl keep lab = (tbl.filter keep).map lab := by
  have h : ∀ (t : List β) (acc : List α),
      t.foldl (fun acc b => if keep b then acc ++ [lab b] else acc) acc
        = acc ++ (t.filter keep).map lab := by
    intro t
    induction t with
    | nil => intro acc; simp
    | cons b bs ih =>
      intro acc
      by_cases hb : keep b
      · simp [List.filter_cons, hb, ih]
      · simp [List.filter_cons, hb, ih]
  simpa [matchedLabels] using h tbl []

theorem count_map_eq_countP {β α : Type} [DecidableEq α] (l : List β) (f : β → α) (a : α) :
    ((l.map f).count a) = l.countP (fun b => f b == a) := by
  induction l with
  | nil => rfl
  | cons x xs ih =>
    by_cases hx : f x = a
    · simp [List.count_cons, List.countP_cons, hx, ih]
    · simp [List.count_cons, List.countP_cons, hx, ih]

/-! ### C1: quiz index normalization -/

/-- Claim C1: `normalize_correct_index` follows the strict priority order:
with a positive option count, a first `Answer: <letter>` hint that maps to
an in-range index wins over everything (even a raw value that would itself
be valid); otherwise a valid 1-based raw value is converted to 0-based,
otherwise a valid 0-based raw value is kept, otherwise the raw value is
clamped to `[0, options_count-1]`.  With `options_count = 0` the result is
`0` for every raw value.  Concretely, `(raw=2, count=4) = 1` and
`(raw=0, count=4, explanation "Answer: C") = 2`. -/
theorem normalize_correct_index_spec (raw : Int) (count : Nat) (blk expl : String) :
    normalize_correct_index raw 0 blk expl = 0
  ∧ (∀ i : Nat, 0 < count → letterHint blk expl = some i → i < count →
      normalize_correct_index raw count blk expl = (i : Int))
  ∧ (0 < count → letterHint blk expl = none →
      normalize_correct_index raw count blk expl =
        (if 1 ≤ raw ∧ raw ≤ (count : Int) then raw - 1
         else if 0 ≤ raw ∧ raw < (count : Int) then raw
         else max 0 (min raw ((count : Int) - 1))))
  ∧ (∀ i : Nat, 0 < count → letterHint blk expl = some i → count ≤ i →
      normalize_correct_index raw count blk expl =
        (if 1 ≤ raw ∧ raw ≤ (count : Int) then raw - 1
         else if 0 ≤ raw ∧ raw < (count : Int) then raw
         else max 0 (min raw ((count : Int) - 1))))
  ∧ normalize_correct_index 2 4 "" "" = 1
  ∧ normalize_correct_index 0 4 "" "Answer: C" = 2 := by
  refine ⟨by simp [normalize_correct_index], ?_, ?_, ?_, by decide, by decide⟩
  · intro i hc hh hlt
    simp [normalize_correct_index, Nat.not_le.mpr hc, hh, hlt]
  · intro hc hh
    simp [normalize_correct_index, Nat.not_le.mpr hc, hh, normFallback]
  · intro i hc hh hge
    simp [normalize_correct_index, Nat.not_le.mpr hc, hh, Nat.not_lt.mpr hge, normFallback]

/-- Closed instances of C1's hypotheses: a letter hint that is in range
overrides a raw value that is itself a valid index, and without any hint a
1-based raw value is decremented. -/
theorem normalize_correct_index_spec_witness :
    (0 < 4 ∧ letterHint "" "Answer: B" = some 1
      ∧ normalize_correct_index 3 4 "" "Answer: B" = 1)
  ∧ (letterHint "" "" = none ∧ normalize_correct_index 3 4 "" "" = 2) := by
  refine ⟨⟨by decide, by decide, ?_⟩, by decide, ?_⟩
  · exact (normalize_correct_index_spec 3 4 "" "Answer: B").2.1 1 (by decide) (by decide)
      (by decide)
  · have h := (normalize_correct_index_spec 3 4 "" "").2.2.1 (by decide) (by decide)
    simpa using h

/-! ### C2: confidence score -/

/-- Claim C2: for every input, the analyzer's confidence equals
`min 1.0 s` where `s` adds 0.1 for a non-empty function name, 0.2 for a
function type, 0.3 for a protocol type, `min(0.1 * |risk_patterns|, 0.3)`
when any risk pattern matched, and 0.1 for non-empty external calls;
consequently it lies in `[0, 1]`, and it is exactly `0` on the empty input
(where no patterns match and all fields are empty). -/
theorem analyze_confidence_spec (code : String) :
    (analyze code).confidence
        = min 1
          ((if (analyze code).function_name ≠ "" then (1 : ℚ)/10 else 0)
            + (if (analyze code).function_type ≠ "" then (2 : ℚ)/10 else 0)
            + (if (analyze code).protocol_type ≠ "" then (3 : ℚ)/10 else 0)
            + (if (analyze code).risk_patterns ≠ [] then
                min (((analyze code).risk_patterns.length : ℚ) * (1/10)) (3/10) else 0)
            + (if (analyze code).external_calls ≠ [] then (1 : ℚ)/10 else 0))
  ∧ 0 ≤ (analyze code).confidence
  ∧ (analyze code).confidence ≤ 1
  ∧ (analyze "").confidence = 0 := by
  refine ⟨?_, ?_, ?_, by decide⟩
  · show confidenceOf code = _
    simp only [analyze, confidenceOf]
    split_ifs <;> (rw [min_comm]; try (congr 1 <;> try ring))
  · show 0 ≤ confidenceOf code
    have hm : (0 : ℚ) ≤ min (((riskPatternsOf code).length : ℚ) * (1/10)) (3/10) :=
      le_min (by positivity) (by norm_num)
    simp only [confidenceOf]
    split_ifs <;> refine le_min ?_ (by norm_num) <;> linarith
  · show confidenceOf code ≤ 1
    simp only [confidenceOf]
    exact min_le_right _ _

/-! ### C3: risk_patterns is not deduplicated (corrected) -/

/-- Claim C3 is false on the code: the analyzer appends the risk tag once
per matching pattern row, so a tag mapped by two matching rows appears
twice.  `.call(` and `transferFrom` both map to "Reentrancy". -/
theorem risk_patterns_dup_counterexample :
    (analyze ".call( transferFrom").risk_patterns = [ "Reentrancy", "Reentrancy" ]
  ∧ ¬ ((analyze ".call( transferFrom").risk_patterns.count "Reentrancy" ≤ 1) := by
  exact ⟨by decide, by decide⟩

/-- Claim C3 (amended): `risk_patterns` holds one entry per matching row of
the risk table, in table order, so a tag occurs exactly as many times as
the number of matching rows that map to it (deduplication applies only to
the derived tag/keyword accumulator sets, not to `risk_patterns`). -/
theorem risk_patterns_amended (code tag : String) :
    (analyze code).risk_patterns.count tag
      = RISK_PATTERNS.countP (fun row => riskRowMatches code row && (row.2.1 == tag)) := by
  show (riskPatternsOf code).count tag = _
  rw [riskPatternsOf, matchedLabels_eq, count_map_eq_countP, List.countP_filter]
  exact List.countP_congr (fun a _ => by rw [Bool.and_comm])

/-! ### C4: ERC detection -/

theorem countP_le_of_imp {α : Type} (l : List α) (p q : α → Bool)
    (h : ∀ a ∈ l, p a = true → q a = true) : l.countP p ≤ l.countP q := by
  induction l with
  | nil => simp
  | cons x xs ih =>
    have hxs : ∀ a ∈ xs, p a = true → q a = true := fun a ha => h a (by simp [ha])
    have hrec := ih hxs
    by_cases hp : p x = true
    · rw [List.countP_cons_of_pos _ _ hp, List.countP_cons_of_pos _ _ (h x (by simp) hp)]
      omega
    · rw [List.countP_cons_of_neg _ _ hp]
      by_cases hq : q x = true
      · rw [List.countP_cons_of_pos _ _ hq]; omega
      · rw [List.countP_cons_of_neg _ _ hq]; omega

theorem keyUnique {α β : Type} [DecidableEq α] :
    ∀ (l : List (α × β)), (l.map Prod.fst).Nodup →
      ∀ {a : α} {b c : β}, (a, b) ∈ l → (a, c) ∈ l → b = c := by
  intro l
  induction l with
  | nil => intro _ _ _ _ h; cases h
  | cons x xs ih =>
    intro hnd a b c hb hc
    rw [List.map_cons, List.nodup_cons] at hnd
    obtain ⟨hx, hxs⟩ := hnd
    rcases List.mem_cons.mp hb with h1 | h1
    · rcases List.mem_cons.mp hc with h2 | h2
      · have h3 : (a, b) = (a, c) := h1.trans h2.symm
        injection h3 with _ h4
      · exact absurd (List.mem_map.mpr ⟨(a, c), h2, by rw [← h1]⟩) hx
    · rcases List.mem_cons.mp hc with h2 | h2
      · exact absurd (List.mem_map.mpr ⟨(a, b), h1, by rw [← h2]⟩) hx
      · exact ih hxs h1 h2

theorem mem_ercs_iff (code std : String) :
    std ∈ ercs_detected code
      ↔ ∃ pats, (std, pats) ∈ ERC_PATTERNS ∧ 2 ≤ ercMatchCount pats code := by
  rw [ercs_detected, matchedLabels_eq]
  constructor
  · intro h
    obtain ⟨row, hrow, hfst⟩ := List.mem_map.mp h
    obtain ⟨hmem, hkeep⟩ := List.mem_filter.mp hrow
    refine ⟨row.2, ?_, by simpa using hkeep⟩
    rw [← hfst]
    simpa using hmem
  · rintro ⟨pats, hmem, hcnt⟩
    exact List.mem_map.mpr ⟨(std, pats), List.mem_filter.mpr ⟨hmem, by simpa using hcnt⟩, rfl⟩

/-- Claim C4: the contract parser includes a standard of the fixed ERC
table iff at least 2 of its defining sub-patterns match; detection is
monotonic in the set of matching sub-patterns, a standard with exactly one
matching sub-pattern is never detected, and several standards can be
detected at once (witnessed by a concrete input detecting ERC20 and
ERC721 together). -/
theorem ercs_detected_spec (code c1 c2 std : String) (pats : List (List Tok)) :
    ((std, pats) ∈ ERC_PATTERNS →
      (std ∈ ercs_detected code ↔ 2 ≤ ercMatchCount pats code))
  ∧ ((∀ row ∈ ERC_PATTERNS, ∀ p ∈ row.2,
        reSearch false [p] c1 = true → reSearch false [p] c2 = true) →
      std ∈ ercs_detected c1 → std ∈ ercs_detected c2)
  ∧ ((std, pats) ∈ ERC_PATTERNS → ercMatchCount pats c1 = 1 →
      std ∉ ercs_detected c1)
  ∧ ercs_detected "totalSupply balanceOf ownerOf tokenURI" = [ "ERC20", "ERC721" ] := by
  have hnd : (ERC_PATTERNS.map Prod.fst).Nodup := by decide
  refine ⟨?_, ?_, ?_, by decide⟩
  · intro hmem
    rw [mem_ercs_iff]
    constructor
    · rintro ⟨pats', hmem', hcnt'⟩
      rwa [← keyUnique ERC_PATTERNS hnd hmem hmem'] at hcnt'
    · intro h
      exact ⟨pats, hmem, h⟩
  · intro hmono hdet
    obtain ⟨pats', hmem', hcnt'⟩ := (mem_ercs_iff c1 std).mp hdet
    refine (mem_ercs_iff c2 std).mpr ⟨pats', hmem', le_trans hcnt' ?_⟩
    exact countP_le_of_imp _ _ _ (fun p hp => hmono (std, pats') hmem' p hp)
  · intro hmem hone hdet
    obtain ⟨pats', hmem', hcnt'⟩ := (mem_ercs_iff c1 std).mp hdet
    rw [keyUnique ERC_PATTERNS hnd hmem hmem'] at hone
    omega

/-- Closed instances of C4's hypotheses: with only `ownerOf` present,
ERC721 has exactly one matching sub-pattern and is not detected; adding
`safeTransferFrom` and `tokenURI` (monotonicity hypothesis discharged on
concrete inputs) detects it. -/
theorem ercs_detected_spec_witness :
    (( "ERC721",
       [lits "ownerOf", lits "safeTransferFrom", lits "tokenURI", lits "ERC721"])
        ∈ ERC_PATTERNS)
  ∧ ercMatchCount [lits "ownerOf", lits "safeTransferFrom", lits "tokenURI",
      lits "ERC721"] "ownerOf" = 1
  ∧ "ERC721" ∉ ercs_detected "ownerOf"
  ∧ "ERC721" ∈ ercs_detected "ownerOf tokenURI safeTransferFrom" := by
  refine ⟨by decide, by decide, ?_, ?_⟩
  · exact (ercs_detected_spec "x" "ownerOf" "x" "ERC721"
      [lits "ownerOf", lits "safeTransferFrom", lits "tokenURI", lits "ERC721"]).2.2.1
      (by decide) (by decide)
  · exact ((ercs_detected_spec "ownerOf tokenURI safeTransferFrom" "x" "x" "ERC721"
      [lits "ownerOf", lits "safeTransferFrom", lits "tokenURI", lits "ERC721"]).1
      (by decide)).mpr (by decide)

/-! ### C5: relevance score formula -/

theorem foldl_risk_add (hay : List Char) (l : List String) (init : Int) :
    l.foldl (fun acc risk => if subStrB (lowerStr risk).toList hay then acc + 20 else acc)
        init
      = init + 20 * ((l.countP (fun risk => subStrB (lowerStr risk).toList hay) : Int)) := by
  induction l generalizing init with
  | nil => simp
  | cons r rs ih =>
    by_cases h : subStrB (lowerStr r).toList hay = true
    · simp only [List.foldl_cons, h, if_true, List.countP_cons, ih]
      push_cast
      ring
    · simp only [List.foldl_cons, h, if_false, List.countP_cons, ih,
        Bool.not_eq_true] at *
      simp [h]

/-- Claim C5: the pitfall relevance score is exactly the sum of the +80
title, +50 tags, +30 haystack, +35 balance-accounting, +20-per-matching-
risk-tag (first 3) and +8/+4 severity bonuses, the selection-name bonuses
all vanishing when the selection name is empty. -/
theorem pitfall_relevance_score_eq_spec (finding : Finding) (sel_name : String)
    (ctx : CodeContext) :
    pitfall_relevance_score finding sel_name ctx
      = relevance_score_spec finding sel_name ctx := by
  simp only [pitfall_relevance_score, relevance_score_spec]
  rw [foldl_risk_add]
  split_ifs <;> omega

/-! ### C6: stable descending ranking -/

theorem insertScoreDesc_perm {α : Type} (x : Int × α) (l : List (Int × α)) :
    (insertScoreDesc x l).Perm (x :: l) := by
  induction l with
  | nil => simp [insertScoreDesc]
  | cons y ys ih =>
    by_cases h : y.1 < x.1
    · simp [insertScoreDesc, h]
    · simp only [insertScoreDesc, h, if_false]
      exact (ih.cons y).trans (List.Perm.swap x y ys)

theorem insertScoreDesc_sorted {α : Type} (x : Int × α) (l : List (Int × α))
    (hl : l.Pairwise (fun a b => b.1 ≤ a.1)) :
    (insertScoreDesc x l).Pairwise (fun a b => b.1 ≤ a.1) := by
  induction l with
  | nil => simp [insertScoreDesc]
  | cons y ys ih =>
    rcases List.pairwise_cons.mp hl with ⟨hy, hys⟩
    by_cases h : y.1 < x.1
    · simp only [insertScoreDesc, h, if_true]
      refine List.pairwise_cons.mpr ⟨?_, hl⟩
      intro z hz
      rcases List.mem_cons.mp hz with rfl | hz'
      · exact le_of_lt h
      · exact le_trans (hy z hz') (le_of_lt h)
    · simp only [insertScoreDesc, h, if_false]
      refine List.pairwise_cons.mpr ⟨?_, ih hys⟩
      intro z hz
      rcases List.mem_cons.mp ((insertScoreDesc_perm x ys).mem_iff.mp hz) with rfl | hz'
      · exact not_lt.mp h
      · exact hy z hz'

theorem insertScoreDesc_filter {α : Type} (s : Int) (x : Int × α) (l : List (Int × α))
    (hl : l.Pairwise (fun a b => b.1 ≤ a.1)) :
    (insertScoreDesc x l).filter (fun p => p.1 == s)
      = l.filter (fun p => p.1 == s) ++ (if x.1 == s then [x] else []) := by
  induction l with
  | nil => by_cases h : (x.1 == s) = true <;> simp [insertScoreDesc, h]
  | cons y ys ih =>
    rcases List.pairwise_cons.mp hl with ⟨hy, hys⟩
    by_cases h : y.1 < x.1
    · simp only [insertScoreDesc, h, if_true]
      by_cases hx : (x.1 == s) = true
      · have hxs : x.1 = s := by simpa using hx
        have hnone : (y :: ys).filter (fun p => p.1 == s) = [] := by
          rw [List.filter_eq_nil_iff]
          intro z hz
          have hzle : z.1 ≤ y.1 := by
            rcases List.mem_cons.mp hz with rfl | hz'
            · exact le_refl _
            · exact hy z hz'
          have hzs : z.1 < s := lt_of_le_of_lt hzle (hxs ▸ h)
          simp only [beq_iff_eq]
          omega
        simp [List.filter_cons, hx, hnone]
      · simp [List.filter_cons, hx]
    · simp only [insertScoreDesc, h, if_false]
      by_cases hy' : (y.1 == s) = true <;>
        simp [List.filter_cons, hy', ih hys]

theorem sortScoreDesc_aux_perm {α : Type} (l acc : List (Int × α)) :
    (l.foldl (fun acc x => insertScoreDesc x acc) acc).Perm (acc ++ l) := by
  induction l generalizing acc with
  | nil => simp
  | cons x xs ih =>
    refine (ih (insertScoreDesc x acc)).trans ?_
    refine (((insertScoreDesc_perm x acc).append_right xs).trans ?_)
    exact List.perm_middle.symm

theorem sortScoreDesc_aux_sorted {α : Type} (l acc : List (Int × α))
    (ha : acc.Pairwise (fun a b => b.1 ≤ a.1)) :
    (l.foldl (fun acc x => insertScoreDesc x acc) acc).Pairwise (fun a b => b.1 ≤ a.1) := by
  induction l generalizing acc with
  | nil => simpa using ha
  | cons x xs ih => exact ih _ (insertScoreDesc_sorted x acc ha)

theorem sortScoreDesc_aux_filter {α : Type} (s : Int) (l acc : List (Int × α))
    (ha : acc.Pairwise (fun a b => b.1 ≤ a.1)) :
    (l.foldl (fun acc x => insertScoreDesc x acc) acc).filter (fun p => p.1 == s)
      = acc.filter (fun p => p.1 == s) ++ l.filter (fun p => p.1 == s) := by
  induction l generalizing acc with
  | nil => simp
  | cons x xs ih =>
    rw [List.foldl_cons, ih _ (insertScoreDesc_sorted x acc ha),
      insertScoreDesc_filter s x acc ha, List.filter_cons]
    by_cases hx : (x.1 == s) = true <;> simp [hx]

/-- Two descending-sorted lists with identical per-score filters are
syntactically equal: stable-descending sorting has a unique result. -/
theorem sortedFiltersUnique {α : Type} :
    ∀ (l₁ l₂ : List (Int × α)),
      l₁.Pairwise (fun a b => b.1 ≤ a.1) →
      l₂.Pairwise (fun a b => b.1 ≤ a.1) →
      (∀ s : Int, l₁.filter (fun p => p.1 == s) = l₂.filter (fun p => p.1 == s)) →
      l₁ = l₂ := by
  intro l₁
  induction l₁ with
  | nil =>
    intro l₂ _ _ hf
    cases l₂ with
    | nil => rfl
    | cons y ys =>
      exfalso
      have := hf y.1
      simp at this
  | cons x xs ih =>
    intro l₂ h₁ h₂ hf
    rcases List.pairwise_cons.mp h₁ with ⟨hx, hxs⟩
    cases l₂ with
    | nil =>
      exfalso
      have := hf x.1
      simp at this
    | cons y ys =>
      rcases List.pairwise_cons.mp h₂ with ⟨hy, hys⟩
      have hxy : x.1 = y.1 := by
        by_contra hne
        have hfx := hf x.1
        have hfy := hf y.1
        have hxx : ((fun p : Int × α => p.1 == x.1) x) = true := by simp
        have hyy : ((fun p : Int × α => p.1 == y.1) y) = true := by simp
        have hyxn : ¬ (((fun p : Int × α => p.1 == x.1) y) = true) := by
          simp only [beq_iff_eq]
          exact fun h => hne h.symm
        have hxyn : ¬ (((fun p : Int × α => p.1 == y.1) x) = true) := by
          simp only [beq_iff_eq]
          exact hne
        rw [@List.filter_cons_of_pos _ (fun p : Int × α => p.1 == x.1) x xs hxx,
          @List.filter_cons_of_neg _ (fun p : Int × α => p.1 == x.1) y ys hyxn] at hfx
        rw [@List.filter_cons_of_neg _ (fun p : Int × α => p.1 == y.1) x xs hxyn,
          @List.filter_cons_of_pos _ (fun p : Int × α => p.1 == y.1) y ys hyy] at hfy
        -- x.1 occurs in ys, so x.1 < y.1; symmetrically y.1 < x.1.
        have h1 : x.1 < y.1 := by
          have hmemf : x ∈ ys.filter (fun p => p.1 == x.1) := by
            rw [← hfx]
            simp
          have hmem := List.mem_filter.mp hmemf
          have := hy x hmem.1
          omega
        have h2 : y.1 < x.1 := by
          have hmemf : y ∈ xs.filter (fun p => p.1 == y.1) := by
            rw [hfy]
            simp
          have hmem := List.mem_filter.mp hmemf
          have := hx y hmem.1
          omega
        omega
      have hxy2 : x = y := by
        have hfx := hf x.1
        have hxx : ((fun p : Int × α => p.1 == x.1) x) = true := by simp
        have hyx : ((fun p : Int × α => p.1 == x.1) y) = true := by simp [hxy]
        rw [@List.filter_cons_of_pos _ (fun p : Int × α => p.1 == x.1) x xs hxx,
          @List.filter_cons_of_pos _ (fun p : Int × α => p.1 == x.1) y ys hyx] at hfx
        injection hfx with h1 h2
      subst hxy2
      have htail : ∀ s : Int, xs.filter (fun p => p.1 == s) = ys.filter (fun p => p.1 == s) := by
        intro s
        have hfs := hf s
        by_cases hs : (((fun p : Int × α => p.1 == s) x) = true)
        · rw [@List.filter_cons_of_pos _ (fun p : Int × α => p.1 == s) x xs hs,
            @List.filter_cons_of_pos _ (fun p : Int × α => p.1 == s) x ys hs] at hfs
          injection hfs
        · rw [@List.filter_cons_of_neg _ (fun p : Int × α => p.1 == s) x xs hs,
            @List.filter_cons_of_neg _ (fun p : Int × α => p.1 == s) x ys hs] at hfs
          exact hfs
      exact congrArg (x :: ·) (ih ys hxs hys htail)

/-- Claim C6: ranking by relevance is a stable descending sort of the
scored, deduplicated findings: the result is a permutation of the scored
list, sorted by non-increasing score, equal-score entries keep their
first-seen order (per-score filters are unchanged), and any list with
those properties is equal to it — so re-running the ranking on the same
input always produces the identical ordering. -/
theorem pitfall_ranking_deterministic (findings : List Finding) (sel_name : String)
    (ctx : CodeContext) :
    (pitfallRank findings sel_name ctx).Perm
        (findings.map (fun f => (pitfall_relevance_score f sel_name ctx, f)))
  ∧ (pitfallRank findings sel_name ctx).Pairwise (fun a b => b.1 ≤ a.1)
  ∧ (∀ s : Int,
      (pitfallRank findings sel_name ctx).filter (fun p => p.1 == s)
        = (findings.map (fun f => (pitfall_relevance_score f sel_name ctx, f))).filter
            (fun p => p.1 == s))
  ∧ (∀ other : List (Int × Finding),
      other.Pairwise (fun a b => b.1 ≤ a.1) →
      (∀ s : Int, other.filter (fun p => p.1 == s)
        = (findings.map (fun f => (pitfall_relevance_score f sel_name ctx, f))).filter
            (fun p => p.1 == s)) →
      other = pitfallRank findings sel_name ctx) := by
  have hperm := sortScoreDesc_aux_perm
    (findings.map (fun f => (pitfall_relevance_score f sel_name ctx, f))) []
  have hsorted := sortScoreDesc_aux_sorted
    (findings.map (fun f => (pitfall_relevance_score f sel_name ctx, f))) [] (by simp)
  have hfilter := fun s => sortScoreDesc_aux_filter s
    (findings.map (fun f => (pitfall_relevance_score f sel_name ctx, f))) [] (by simp)
  refine ⟨by simpa [pitfallRank, sortScoreDesc] using hperm,
    by simpa [pitfallRank, sortScoreDesc] using hsorted,
    fun s => by simpa [pitfallRank, sortScoreDesc] using hfilter s, ?_⟩
  intro other hother hofilter
  refine sortedFiltersUnique other (pitfallRank findings sel_name ctx) hother
    (by simpa [pitfallRank, sortScoreDesc] using hsorted) ?_
  intro s
  rw [hofilter s]
  exact (by simpa [pitfallRank, sortScoreDesc] using hfilter s : _ = _).symm

/-- Closed instance of C6: two equal-scored findings keep their first-seen
order, derived from the uniqueness clause with the hypotheses discharged on
concrete data. -/
theorem pitfall_ranking_deterministic_witness :
    pitfallRank [wFinding1, wFinding2] "" wCtx = [(8, wFinding1), (8, wFinding2)] := by
  have hmap : [wFinding1, wFinding2].map
      (fun f => (pitfall_relevance_score f "" wCtx, f)) = [(8, wFinding1), (8, wFinding2)] := by
    decide
  exact ((pitfall_ranking_deterministic [wFinding1, wFinding2] "" wCtx).2.2.2
    [(8, wFinding1), (8, wFinding2)] (by decide) (fun s => by rw [hmap])).symm

/-! ### C7: report post-processing -/

theorem toList_append (s t : String) : (s ++ t).toList = s.toList ++ t.toList := rfl

theorem startsL_append_self (n t : List Char) : startsL n (n ++ t) = true := by
  induction n with
  | nil => rfl
  | cons c cs ih => simp [startsL, ih]

theorem subStrB_of_startsL {n s : List Char} (h : startsL n s = true) :
    subStrB n s = true := by
  cases s with
  | nil => exact h
  | cons x xs => simp [subStrB, h]

theorem subStrB_append_left (n s t : List Char) (h : subStrB n t = true) :
    subStrB n (s ++ t) = true := by
  induction s with
  | nil => exact h
  | cons x xs ih => simp [subStrB, ih]

theorem startsL_append_of {n s : List Char} (t : List Char) (h : startsL n s = true) :
    startsL n (s ++ t) = true := by
  induction n generalizing s with
  | nil => rfl
  | cons c cs ih =>
    cases s with
    | nil => exact absurd h (by simp [startsL])
    | cons x xs =>
      simp only [startsL, Bool.and_eq_true] at h
      simp [startsL, h.1, ih h.2]

theorem subStrB_nil_needle (t : List Char) : subStrB [] t = true := by
  cases t <;> simp [subStrB, startsL]

theorem subStrB_append_right (n s t : List Char) (h : subStrB n s = true) :
    subStrB n (s ++ t) = true := by
  induction s with
  | nil =>
    have hn : n = [] := by
      cases n with
      | nil => rfl
      | cons c cs => exact absurd h (by simp [subStrB, startsL])
    subst hn
    exact subStrB_nil_needle t
  | cons x xs ih =>
    simp only [subStrB, Bool.or_eq_true] at h
    rcases h with h | h
    · exact subStrB_of_startsL (startsL_append_of t h)
    · simp [subStrB, ih h]

theorem subStrB_sandwich (n a b : List Char) : subStrB n (a ++ (n ++ b)) = true :=
  subStrB_append_left n a _ (subStrB_of_startsL (startsL_append_self n b))

theorem escapeHtml_no_angle (s : String) :
    ∀ c ∈ (escapeHtml s).toList, c ≠ '<' ∧ c ≠ '>' := by
  show ∀ c ∈ s.toList.foldr (fun c acc => escapeChar c ++ acc) [], c ≠ '<' ∧ c ≠ '>'
  induction s.toList with
  | nil => intro c hc; cases hc
  | cons x xs ih =>
    intro c hc
    rw [List.foldr_cons, List.mem_append] at hc
    rcases hc with hc | hc
    · revert hc
      unfold escapeChar
      split_ifs with h1 h2 h3 h4 h5 <;> intro hc <;> first
        | (simp only [List.mem_singleton] at hc; subst hc; exact ⟨h2, h3⟩)
        | (fin_cases hc <;> exact ⟨by decide, by decide⟩)
    · exact ih c hc

theorem concatRows_contains (needle : List Char) (r : String) (rs : List String)
    (hmem : r ∈ rs) (h : subStrB needle r.toList = true) :
    subStrB needle (concatRows rs).toList = true := by
  induction rs with
  | nil => cases hmem
  | cons x xs ih =>
    rcases List.mem_cons.mp hmem with rfl | hmem'
    · rw [concatRows, toList_append]
      exact subStrB_append_right needle _ _ h
    · rw [concatRows, toList_append]
      exact subStrB_append_left needle _ _ (ih hmem')

theorem startsL_self (n : List Char) : startsL n n = true := by
  induction n with
  | nil => rfl
  | cons c cs ih => simp [startsL, ih]

theorem subStrB_self (n : List Char) : subStrB n n = true :=
  subStrB_of_startsL (startsL_self n)

theorem evidenceRow_contains_id (m : MatchedRef) :
    subStrB (escapeHtml m.id).toList (evidenceRow m).toList = true := by
  rw [evidenceRow]
  simp only [toList_append]
  apply subStrB_append_right
  apply subStrB_append_right
  apply subStrB_append_right
  apply subStrB_append_right
  apply subStrB_append_right
  apply subStrB_append_right
  apply subStrB_append_right
  apply subStrB_append_right
  apply subStrB_append_right
  apply subStrB_append_right
  apply subStrB_append_right
  apply subStrB_append_right
  apply subStrB_append_right
  apply subStrB_append_right
  apply subStrB_append_left
  exact subStrB_self _

theorem evidenceRow_contains_title (m : MatchedRef) :
    subStrB (escapeHtml m.title).toList (evidenceRow m).toList = true := by
  rw [evidenceRow]
  simp only [toList_append]
  apply subStrB_append_right
  apply subStrB_append_right
  apply subStrB_append_right
  apply subStrB_append_right
  apply subStrB_append_right
  apply subStrB_append_right
  apply subStrB_append_right
  apply subStrB_append_right
  apply subStrB_append_right
  apply subStrB_append_right
  apply subStrB_append_right
  apply subStrB_append_left
  exact subStrB_self _

theorem evidenceSection_contains (m : MatchedRef) (matched : List MatchedRef)
    (hm : m ∈ matched.take 8) (needle : List Char)
    (hrow : subStrB needle (evidenceRow m).toList = true) :
    subStrB needle (evidenceSectionHtml matched).toList = true := by
  rw [evidenceSectionHtml]
  simp only [toList_append]
  apply subStrB_append_right
  apply subStrB_append_left
  exact concatRows_contains needle (evidenceRow m) _ (List.mem_map_of_mem evidenceRow hm) hrow

/-- Claim C7 (amended): report post-processing applies one left-to-right
removal pass per quote style over whitespace-preceded `style=...`
attributes (text joined by a removal can itself spell a new style
attribute, which survives, as the counterexample shows); when the matched
list is non-empty it appends an Evidence Map section holding one row per
matched finding capped at 8 rows with HTML-escaped values (so the escaped
id and title of each of the first 8 matched findings occur in the output,
and escaping yields no literal angle brackets); when the matched list is
empty nothing is appended, though the input's own text is preserved and
may itself already contain style attributes or the words "Evidence Map". -/
theorem postprocess_report_amended (html : String) (matched : List MatchedRef) :
    (matched = [] → postprocess_report_html html matched = reportBodyPass html)
  ∧ (matched ≠ [] →
      postprocess_report_html html matched
        = reportBodyPass html ++ evidenceSectionHtml matched)
  ∧ (matched.take 8).length ≤ 8
  ∧ (∀ m ∈ matched.take 8,
      subStrB (escapeHtml m.id).toList (postprocess_report_html html matched).toList = true
      ∧ subStrB (escapeHtml m.title).toList
          (postprocess_report_html html matched).toList = true)
  ∧ (∀ f : String, ∀ c ∈ (escapeHtml f).toList, c ≠ '<' ∧ c ≠ '>')
  ∧ reportBodyPass "<p style=\"x\">ok</p>" = "<p>ok</p>"
  ∧ reportBodyPass ( "<p style=" ++ sQuote ++ "x" ++ sQuote ++ ">ok</p>") = "<p>ok</p>" := by
  refine ⟨?_, ?_, ?_, ?_, fun f => escapeHtml_no_angle f, by decide, by decide⟩
  · intro h
    simp [postprocess_report_html, h]
  · intro h
    simp [postprocess_report_html, h]
  · rw [List.length_take]
    exact min_le_left _ _
  · intro m hm
    have hne : matched ≠ [] := by
      intro h
      rw [h] at hm
      cases hm
    have hout : postprocess_report_html html matched
        = reportBodyPass html ++ evidenceSectionHtml matched := by
      simp [postprocess_report_html, hne]
    rw [hout, toList_append]
    exact ⟨subStrB_append_left _ _ _
        (evidenceSection_contains m matched hm _ (evidenceRow_contains_id m)),
      subStrB_append_left _ _ _
        (evidenceSection_contains m matched hm _ (evidenceRow_contains_title m))⟩

/-- Claim C7 counterexample: on
`<h2>Evidence Map</h2><p sty style="a"le="b">` with no matched findings,
the single style-removal pass re-joins the text into a fresh
`style="b"` attribute that survives in the output, and the output contains
an "Evidence Map" heading that came from the input — both contradicting
the claim that every style attribute is removed and that the output has no
Evidence Map section when the matched list is empty. -/
theorem postprocess_report_counterexample :
    postprocess_report_html "<h2>Evidence Map</h2><p sty style=\"a\"le=\"b\">" []
      = "<h2>Evidence Map</h2><p style=\"b\">"
  ∧ subStrB ( " style=\"b\"".toList)
      (postprocess_report_html "<h2>Evidence Map</h2><p sty style=\"a\"le=\"b\">" []).toList
      = true
  ∧ subStrB ( "Evidence Map".toList)
      (postprocess_report_html "<h2>Evidence Map</h2><p sty style=\"a\"le=\"b\">" []).toList
      = true := by
  exact ⟨by decide, by decide, by decide⟩

/-- Closed instance of C7's amended statement at a concrete matched list:
the appended Evidence Map contains the finding id `F1`. -/
theorem postprocess_report_amended_witness :
    ([wMatched] ≠ ([] : List MatchedRef))
  ∧ subStrB ( "F1".toList) (postprocess_report_html "" [wMatched]).toList = true := by
  refine ⟨by decide, ?_⟩
  have h := ((postprocess_report_amended "" [wMatched]).2.2.2.1 wMatched (by decide)).1
  have he : escapeHtml wMatched.id = "F1" := by decide
  rwa [he] at h

/-! ### C8: quiz parsing never fails -/

theorem takeWhile_all_digits (r : List Char) :
    (r.takeWhile isDigitChar).all isDigitChar = true := by
  induction r with
  | nil => rfl
  | cons x xs ih =>
    by_cases hx : isDigitChar x = true
    · simp [List.takeWhile_cons, hx, ih]
    · simp [List.takeWhile_cons, hx]

theorem tryMarker_digits {s d : List Char} (h : tryMarker s = some d) :
    d ≠ [] ∧ d.all isDigitChar = true := by
  unfold tryMarker at h
  split at h
  · cases h
  · simp only [] at h
    split at h
    · cases h
    · split at h
      · injection h with h
        subst h
        refine ⟨?_, takeWhile_all_digits _⟩
        intro hcon
        simp_all
      · cases h

theorem findLastMarkerAux_digits : ∀ (s : List Char) (acc : Option (List Char))
    (d : List Char),
    (∀ d0, acc = some d0 → d0 ≠ [] ∧ d0.all isDigitChar = true) →
    findLastMarkerAux acc s = some d → d ≠ [] ∧ d.all isDigitChar = true := by
  intro s
  induction s with
  | nil =>
    intro acc d hacc h
    rw [findLastMarkerAux] at h
    cases htm : tryMarker [] with
    | some d0 =>
      rw [htm] at h
      injection h with h
      subst h
      exact tryMarker_digits htm
    | none =>
      rw [htm] at h
      exact hacc d h
  | cons x xs ih =>
    intro acc d hacc h
    rw [findLastMarkerAux] at h
    cases htm : tryMarker (x :: xs) with
    | some d0 =>
      rw [htm] at h
      refine ih (some d0) d (fun d1 h1 => ?_) h
      injection h1 with h1
      subst h1
      exact tryMarker_digits htm
    | none =>
      rw [htm] at h
      exact ih acc d hacc h

theorem findLastMarker_digits : ∀ {s d : List Char}, findLastMarker s = some d →
    d ≠ [] ∧ d.all isDigitChar = true := by
  intro s d h
  exact findLastMarkerAux_digits s none d (fun d0 h0 => by cases h0) h

theorem blockMatchAt_digits {s d b r : List Char}
    (h : blockMatchAt s = some ((d, b), r)) : d ≠ [] ∧ d.all isDigitChar = true := by
  unfold blockMatchAt at h
  split at h
  · cases h
  · simp only [] at h
    split at h
    · cases h
    · split at h
      · cases h
      · split at h
        · split at h
          · cases h
          · split at h
            · cases h
            · injection h with h
              have h' : _ = d := congrArg (fun p => p.1.1) h
              subst h'
              exact findLastMarker_digits (by assumption)
        · cases h

theorem scanIterF_mem {α : Type} (f : List Char → Option (α × List Char)) (P : α → Prop)
    (hf : ∀ s a r, f s = some (a, r) → P a) :
    ∀ (fuel : Nat) (s : List Char) (a : α), a ∈ scanIterF f fuel s → P a := by
  intro fuel
  induction fuel with
  | zero =>
    intro s a ha
    cases s with
    | nil => cases ha
    | cons x xs => cases ha
  | succ n ih =>
    intro s a ha
    cases s with
    | nil => cases ha
    | cons x xs =>
      rw [scanIterF] at ha
      cases hfx : f (x :: xs) with
      | some p =>
        rw [hfx] at ha
        rcases List.mem_cons.mp ha with rfl | h'
        · exact hf _ _ _ (by rw [hfx])
        · exact ih _ _ h'
      | none =>
        rw [hfx] at ha
        exact ih _ _ ha

theorem quizFromBlocks_ok : ∀ (blocks : List (List Char × List Char)),
    (∀ p ∈ blocks, p.1 ≠ [] ∧ p.1.all isDigitChar = true ∧ p.1.length ≤ 4300) →
    ∃ qs, quizFromBlocks blocks = Except.ok qs := by
  intro blocks
  induction blocks with
  | nil => exact fun _ => ⟨[], rfl⟩
  | cons p rest ih =>
    intro h
    obtain ⟨hne, hall, hlen⟩ := h p (by simp)
    obtain ⟨qs', hqs'⟩ := ih (fun q hq => h q (by simp [hq]))
    obtain ⟨d, block⟩ := p
    have hd : digitsToInt? d
        = some (Int.ofNat (d.foldl (fun acc c => acc * 10 + (c.toNat - '0'.toNat)) 0)) := by
      simp only [digitsToInt?]
      rw [if_pos]
      exact ⟨hne, hall, hlen⟩
    rw [quizFromBlocks, hd, hqs']
    exact ⟨_, rfl⟩

/-! ### C8 counterexample machinery

The refuting input is `overLimitQuizHtml`, whose `data-correct` attribute
carries `bigDigits` (4301 copies of `'1'`).  A 4301-element list cannot be
forced by kernel reduction, so `parse_quiz` is evaluated on it
symbolically: every lemma below keeps `bigDigits` abstract and only ever
peels the short literal text around it. -/

theorem all_replicate {α : Type} (n : Nat) (a : α) (p : α → Bool) (h : p a = true) :
    (List.replicate n a).all p = true := by
  induction n with
  | zero => rfl
  | succ k ih =>
    rw [List.replicate_succ, List.all_cons, h, ih]
    rfl

theorem takeWhile_append_all {α : Type} (p : α → Bool) (l₁ l₂ : List α)
    (h : l₁.all p = true) :
    (l₁ ++ l₂).takeWhile p = l₁ ++ l₂.takeWhile p := by
  induction l₁ with
  | nil => rfl
  | cons x xs ih =>
    rw [List.all_cons, Bool.and_eq_true] at h
    rw [List.cons_append, List.takeWhile_cons_of_pos h.1, ih h.2, List.cons_append]

theorem bigDigits_all : bigDigits.all isDigitChar = true :=
  all_replicate 4301 '1' isDigitChar (by decide)

theorem bigDigits_ne : bigDigits.all (fun c => decide (c ≠ '>')) = true :=
  all_replicate 4301 '1' (fun c => decide (c ≠ '>')) (by decide)

theorem bigDigits_len : bigDigits.length = 4301 := by
  show (List.replicate 4301 '1').length = 4301
  rw [List.length_replicate]

theorem bigDigits_notEmpty : bigDigits.isEmpty = false := by
  show (List.replicate 4301 '1').isEmpty = false
  rw [show (4301 : Nat) = 4300 + 1 from rfl, List.replicate_succ]
  rfl

theorem takeWhile_digits_big :
    (bigDigits ++ [ '"' ]).takeWhile isDigitChar = bigDigits := by
  rw [takeWhile_append_all isDigitChar bigDigits [ '"' ] bigDigits_all,
    show ([ '"' ] : List Char).takeWhile isDigitChar = [] from rfl,
    List.append_nil]

/-- `data-correct="(\d+)"` matches at the marker itself and captures the
whole 4301-digit run. -/
theorem tryMarker_at_marker :
    tryMarker (( "data-correct=\"".toList ++ bigDigits) ++ [ '"' ]) = some bigDigits := by
  have h1 : dropLit false ( "data-correct=\"".toList)
      (( "data-correct=\"".toList ++ bigDigits) ++ [ '"' ])
      = some (bigDigits ++ [ '"' ]) := rfl
  have hne : ¬ (false = true) := by decide
  unfold tryMarker
  rw [h1]
  simp only [takeWhile_digits_big, bigDigits_notEmpty]
  rw [if_neg hne, List.drop_left]
  rfl

theorem findLastMarkerAux_skip (acc : Option (List Char)) (x : Char) (xs : List Char)
    (h : tryMarker (x :: xs) = none) :
    findLastMarkerAux acc (x :: xs) = findLastMarkerAux acc xs := by
  rw [findLastMarkerAux, h]

theorem findLastMarkerAux_hit (acc : Option (List Char)) (x : Char) (xs d : List Char)
    (h : tryMarker (x :: xs) = some d) :
    findLastMarkerAux acc (x :: xs) = findLastMarkerAux (some d) xs := by
  rw [findLastMarkerAux, h]

/-- Scanning the digit run itself (terminated by the closing quote) never
finds another marker, so the accumulator survives. -/
theorem findLastMarkerAux_digitsTail :
    ∀ (n : Nat) (acc : Option (List Char)),
      findLastMarkerAux acc (List.replicate n '1' ++ [ '"' ]) = acc := by
  intro n
  induction n with
  | zero =>
    intro acc
    rfl
  | succ k ih =>
    intro acc
    rw [List.replicate_succ, List.cons_append,
      findLastMarkerAux_skip acc '1' (List.replicate k '1' ++ [ '"' ]) rfl]
    exact ih acc

/-- The `[^>]*` region of the over-limit block contains exactly one
`data-correct` marker, found after skipping the leading space; every later
position fails, so the greedy backtracking returns the 4301-digit capture. -/
theorem findLastMarker_bigRegion :
    findLastMarker (( " data-correct=\"".toList ++ bigDigits) ++ [ '"' ])
      = some bigDigits := by
  show findLastMarkerAux none (( " data-correct=\"".toList ++ bigDigits) ++ [ '"' ])
      = some bigDigits
  rw [show (( " data-correct=\"".toList ++ bigDigits) ++ [ '"' ])
      = ' ' :: (( "data-correct=\"".toList ++ bigDigits) ++ [ '"' ]) from rfl,
    findLastMarkerAux_skip none ' '
      (( "data-correct=\"".toList ++ bigDigits) ++ [ '"' ]) rfl]
  rw [show (( "data-correct=\"".toList ++ bigDigits) ++ [ '"' ])
      = 'd' :: (( "ata-correct=\"".toList ++ bigDigits) ++ [ '"' ]) from rfl,
    findLastMarkerAux_hit none 'd'
      (( "ata-correct=\"".toList ++ bigDigits) ++ [ '"' ]) bigDigits
      (by exact tryMarker_at_marker)]
  rw [show (( "ata-correct=\"".toList ++ bigDigits) ++ [ '"' ])
      = 'a' :: (( "ta-correct=\"".toList ++ bigDigits) ++ [ '"' ]) from rfl,
    findLastMarkerAux_skip (some bigDigits) 'a'
      (( "ta-correct=\"".toList ++ bigDigits) ++ [ '"' ]) rfl]
  rw [show (( "ta-correct=\"".toList ++ bigDigits) ++ [ '"' ])
      = 't' :: (( "a-correct=\"".toList ++ bigDigits) ++ [ '"' ]) from rfl,
    findLastMarkerAux_skip (some bigDigits) 't'
      (( "a-correct=\"".toList ++ bigDigits) ++ [ '"' ]) rfl]
  rw [show (( "a-correct=\"".toList ++ bigDigits) ++ [ '"' ])
      = 'a' :: (( "-correct=\"".toList ++ bigDigits) ++ [ '"' ]) from rfl,
    findLastMarkerAux_skip (some bigDigits) 'a'
      (( "-correct=\"".toList ++ bigDigits) ++ [ '"' ]) rfl]
  rw [show (( "-correct=\"".toList ++ bigDigits) ++ [ '"' ])
      = '-' :: (( "correct=\"".toList ++ bigDigits) ++ [ '"' ]) from rfl,
    findLastMarkerAux_skip (some bigDigits) '-'
      (( "correct=\"".toList ++ bigDigits) ++ [ '"' ]) rfl]
  rw [show (( "correct=\"".toList ++ bigDigits) ++ [ '"' ])
      = 'c' :: (( "orrect=\"".toList ++ bigDigits) ++ [ '"' ]) from rfl,
    findLastMarkerAux_skip (some bigDigits) 'c'
      (( "orrect=\"".toList ++ bigDigits) ++ [ '"' ]) rfl]
  rw [show (( "orrect=\"".toList ++ bigDigits) ++ [ '"' ])
      = 'o' :: (( "rrect=\"".toList ++ bigDigits) ++ [ '"' ]) from rfl,
    findLastMarkerAux_skip (some bigDigits) 'o'
      (( "rrect=\"".toList ++ bigDigits) ++ [ '"' ]) rfl]
  rw [show (( "rrect=\"".toList ++ bigDigits) ++ [ '"' ])
      = 'r' :: (( "rect=\"".toList ++ bigDigits) ++ [ '"' ]) from rfl,
    findLastMarkerAux_skip (some bigDigits) 'r'
      (( "rect=\"".toList ++ bigDigits) ++ [ '"' ]) rfl]
  rw [show (( "rect=\"".toList ++ bigDigits) ++ [ '"' ])
      = 'r' :: (( "ect=\"".toList ++ bigDigits) ++ [ '"' ]) from rfl,
    findLastMarkerAux_skip (some bigDigits) 'r'
      (( "ect=\"".toList ++ bigDigits) ++ [ '"' ]) rfl]
  rw [show (( "ect=\"".toList ++ bigDigits) ++ [ '"' ])
      = 'e' :: (( "ct=\"".toList ++ bigDigits) ++ [ '"' ]) from rfl,
    findLastMarkerAux_skip (some bigDigits) 'e'
      (( "ct=\"".toList ++ bigDigits) ++ [ '"' ]) rfl]
  rw [show (( "ct=\"".toList ++ bigDigits) ++ [ '"' ])
      = 'c' :: (( "t=\"".toList ++ bigDigits) ++ [ '"' ]) from rfl,
    findLastMarkerAux_skip (some bigDigits) 'c'
      (( "t=\"".toList ++ bigDigits) ++ [ '"' ]) rfl]
  rw [show (( "t=\"".toList ++ bigDigits) ++ [ '"' ])
      = 't' :: (( "=\"".toList ++ bigDigits) ++ [ '"' ]) from rfl,
    findLastMarkerAux_skip (some bigDigits) 't'
      (( "=\"".toList ++ bigDigits) ++ [ '"' ]) rfl]
  rw [show (( "=\"".toList ++ bigDigits) ++ [ '"' ])
      = '=' :: ( '"' :: (bigDigits ++ [ '"' ])) from rfl,
    findLastMarkerAux_skip (some bigDigits) '='
      ( '"' :: (bigDigits ++ [ '"' ])) rfl]
  rw [findLastMarkerAux_skip (some bigDigits) '"' (bigDigits ++ [ '"' ]) rfl]
  exact findLastMarkerAux_digitsTail 4301 (some bigDigits)

theorem region_big :
    ((( " data-correct=\"".toList ++ bigDigits) ++ ( "\">x</div>".toList)).takeWhile
        (fun c => decide (c ≠ '>')))
      = ( " data-correct=\"".toList ++ bigDigits) ++ [ '"' ] := by
  rw [takeWhile_append_all (fun c => decide (c ≠ '>'))
      ( " data-correct=\"".toList ++ bigDigits) ( "\">x</div>".toList)
      (by rw [List.all_append, bigDigits_ne]; rfl),
    show (( "\">x</div>".toList) : List Char).takeWhile (fun c => decide (c ≠ '>'))
        = [ '"' ] from rfl]

theorem drop_region_big :
    ((( " data-correct=\"".toList ++ bigDigits) ++ ( "\">x</div>".toList)).drop
        ((( " data-correct=\"".toList ++ bigDigits) ++ [ '"' ]).length))
      = ( ">x</div>".toList) := by
  have hsplit : (( " data-correct=\"".toList ++ bigDigits) ++ ( "\">x</div>".toList))
      = ((( " data-correct=\"".toList ++ bigDigits) ++ [ '"' ]) ++ ( ">x</div>".toList)) := by
    conv_rhs => rw [List.append_assoc]
    rfl
  rw [hsplit, List.drop_left]

/-- Stepwise evaluation of `blockMatchAt` with every intermediate value
abstract, so that no reduction can descend into a long list. -/
theorem blockMatchAt_eval (s r1 r3 region r4 d body rest : List Char)
    (h1 : dropLit false ( "<div".toList) s = some r1)
    (h2 : countWhile isSpaceChar r1 = 1)
    (h3 : dropLit false ( "class=\"quiz-question\"".toList) (r1.drop 1) = some r3)
    (h4 : r3.takeWhile (fun c => decide (c ≠ '>')) = region)
    (h5 : r3.drop region.length = '>' :: r4)
    (h6 : findLastMarker region = some d)
    (h7 : lazyBody r4 = some (body, rest)) :
    blockMatchAt s = some ((d, body), rest) := by
  unfold blockMatchAt
  rw [h1]
  simp only []
  rw [h2, if_neg Nat.one_ne_zero, h3]
  simp only []
  rw [h4, h5]
  simp only []
  rw [h6]
  simp only []
  rw [h7]

/-- The question-block regex matches the whole over-limit block, capturing
the 4301-digit run, body `x` and empty remainder. -/
theorem blockMatchAt_big :
    blockMatchAt overLimitQuizHtml.toList = some ((bigDigits, [ 'x' ]), []) := by
  refine blockMatchAt_eval overLimitQuizHtml.toList
    (( " class=\"quiz-question\" data-correct=\"".toList ++ bigDigits)
      ++ ( "\">x</div>".toList))
    (( " data-correct=\"".toList ++ bigDigits) ++ ( "\">x</div>".toList))
    (( " data-correct=\"".toList ++ bigDigits) ++ [ '"' ])
    ( "x</div>".toList) bigDigits [ 'x' ] []
    rfl rfl rfl region_big ?_ findLastMarker_bigRegion rfl
  rw [drop_region_big]
  rfl

theorem scanIter_single {α : Type} (f : List Char → Option (α × List Char))
    (x : Char) (xs : List Char) (a : α) (hf : f (x :: xs) = some (a, [])) :
    scanIter f (x :: xs) = [a] := by
  show scanIterF f (x :: xs).length (x :: xs) = [a]
  rw [List.length_cons, scanIterF, hf]
  simp only [List.length_nil, Nat.sub_zero, List.drop_length]
  rw [scanIterF]

theorem digitsToInt_big : digitsToInt? bigDigits = none := by
  have hnot : ¬ (bigDigits ≠ [] ∧ bigDigits.all isDigitChar = true
      ∧ bigDigits.length ≤ 4300) := by
    intro hcon
    have h1 : bigDigits.length ≤ 4300 := hcon.2.2
    rw [bigDigits_len] at h1
    omega
  unfold digitsToInt?
  rw [if_neg hnot]

/-- Claim C8 counterexample: on a syntactically well-formed quiz block
whose `data-correct` attribute carries 4301 digits, the capture exceeds
CPython's default 4300-digit integer-string-conversion limit, so
`int(match.group(1))` raises `ValueError` inside `_parse_quiz` (which has
no try/except) instead of returning a list — refuting the claim that quiz
parsing never raises on any input. -/
theorem parse_quiz_counterexample :
    parse_quiz overLimitQuizHtml
      = Except.error "ValueError in int(match.group(1))" := by
  rw [parse_quiz,
    show overLimitQuizHtml.toList
        = '<' :: (( "div class=\"quiz-question\" data-correct=\"".toList ++ bigDigits)
            ++ ( "\">x</div>".toList)) from rfl,
    scanIter_single (fun s => blockMatchAt s) '<'
      (( "div class=\"quiz-question\" data-correct=\"".toList ++ bigDigits)
        ++ ( "\">x</div>".toList))
      ((bigDigits, [ 'x' ])) (by exact blockMatchAt_big),
    quizFromBlocks, digitsToInt_big]

/-- Claim C8 (amended): quiz parsing always terminates, and it returns a
list without raising on every input whose `data-correct` captures have at
most 4300 digits — in particular on all merely malformed or unterminated
HTML, where the regex extractors return partial or empty results; the one
exception is a capture longer than CPython's default 4300-digit
integer-string-conversion limit, where `int(match.group(1))` raises
`ValueError`, and parsing fails only for that reason. -/
theorem parse_quiz_amended (html : String) :
    ((∀ p ∈ scanIter (fun s => blockMatchAt s) html.toList, p.1.length ≤ 4300) →
      ∃ qs, parse_quiz html = Except.ok qs)
  ∧ (∀ e, parse_quiz html = Except.error e →
      ∃ p ∈ scanIter (fun s => blockMatchAt s) html.toList, 4300 < p.1.length) := by
  have hdig : ∀ p ∈ scanIter (fun s => blockMatchAt s) html.toList,
      p.1 ≠ [] ∧ p.1.all isDigitChar = true := by
    intro p hp
    exact scanIterF_mem (fun s => blockMatchAt s)
      (fun p => p.1 ≠ [] ∧ p.1.all isDigitChar = true)
      (fun s a r hf => by
        obtain ⟨d0, b0⟩ := a
        exact blockMatchAt_digits hf)
      html.toList.length html.toList p hp
  have h1 : (∀ p ∈ scanIter (fun s => blockMatchAt s) html.toList, p.1.length ≤ 4300) →
      ∃ qs, parse_quiz html = Except.ok qs := by
    intro hsmall
    rw [parse_quiz]
    apply quizFromBlocks_ok
    intro p hp
    exact ⟨(hdig p hp).1, (hdig p hp).2, hsmall p hp⟩
  refine ⟨h1, ?_⟩
  intro e he
  by_contra hcon
  push_neg at hcon
  obtain ⟨qs, hqs⟩ := h1 (fun p hp => by
    have := hcon p hp
    omega)
  rw [hqs] at he
  cases he

/-- Closed instance of C8's amended statement: on a concrete block with a
one-digit capture the hypothesis holds and parsing succeeds. -/
theorem parse_quiz_amended_witness :
    (∀ p ∈ scanIter (fun s => blockMatchAt s) wQuizHtml.toList, p.1.length ≤ 4300)
  ∧ ∃ qs, parse_quiz wQuizHtml = Except.ok qs := by
  refine ⟨by decide, (parse_quiz_amended wQuizHtml).1 (by decide)⟩

/-! ### C10: parsed-question invariant -/

theorem normFallback_bounds (raw : Int) (count : Nat) (hc : 0 < count) :
    0 ≤ normFallback raw count ∧ normFallback raw count < (count : Int) := by
  unfold normFallback
  split_ifs <;> constructor <;> omega

theorem normalize_bounds (raw : Int) (count : Nat) (b e : String) (hc : 0 < count) :
    0 ≤ normalize_correct_index raw count b e
      ∧ normalize_correct_index raw count b e < (count : Int) := by
  unfold normalize_correct_index
  have hno : ¬ count ≤ 0 := by omega
  rw [if_neg hno]
  cases h : letterHint b e with
  | some i =>
    show 0 ≤ (if i < count then (i : Int) else normFallback raw count)
      ∧ (if i < count then (i : Int) else normFallback raw count) < (count : Int)
    by_cases hi : i < count
    · rw [if_pos hi]
      exact ⟨Int.ofNat_nonneg i, by exact_mod_cast hi⟩
    · rw [if_neg hi]
      exact normFallback_bounds raw count hc
  | none =>
    show 0 ≤ normFallback raw count ∧ normFallback raw count < (count : Int)
    exact normFallback_bounds raw count hc

theorem mkQuestion_invariant {raw : Int} {block : List Char} {q : QuizQuestion}
    (h : mkQuestion raw block = some q) :
    q.options ≠ [] ∧ 0 ≤ q.correct_index
      ∧ q.correct_index < (q.options.length : Int) := by
  unfold mkQuestion at h
  simp only [] at h
  split at h
  · cases h
  · rename_i head tail heq
    injection h with h
    subst h
    have hpos : 0 < ((scanIter optionAt block).map (fun b => String.mk (stripChars b))).length := by
      rw [heq]
      simp
    refine ⟨?_, ?_, ?_⟩
    · show ((scanIter optionAt block).map (fun b => String.mk (stripChars b))) ≠ []
      rw [heq]
      simp
    · exact (normalize_bounds raw _ (String.mk block) _ hpos).1
    · exact (normalize_bounds raw _ (String.mk block) _ hpos).2

theorem quizFromBlocks_mem : ∀ (blocks : List (List Char × List Char))
    (qs : List QuizQuestion) (q : QuizQuestion),
    quizFromBlocks blocks = Except.ok qs → q ∈ qs →
    ∃ raw block, mkQuestion raw block = some q := by
  intro blocks
  induction blocks with
  | nil =>
    intro qs q h hq
    injection h with h
    subst h
    cases hq
  | cons p rest ih =>
    intro qs q h hq
    obtain ⟨d, block⟩ := p
    rw [quizFromBlocks] at h
    cases hd : digitsToInt? d with
    | none => rw [hd] at h; cases h
    | some raw =>
      rw [hd] at h
      cases hr : quizFromBlocks rest with
      | error e => rw [hr] at h; cases h
      | ok tail =>
        rw [hr] at h
        injection h with h
        cases hmk : mkQuestion raw block with
        | some q' =>
          rw [hmk] at h
          subst h
          rcases List.mem_cons.mp hq with rfl | hq'
          · exact ⟨raw, block, hmk⟩
          · exact ih tail q hr hq'
        | none =>
          rw [hmk] at h
          subst h
          exact ih tail q hr hq

/-- Claim C10: every question emitted by quiz parsing has a non-empty
options list (blocks with zero parsed options are dropped) and a
`correct_index` within `[0, len(options)-1]` (guaranteed by the
normalization step, which always clamps into range when the option count
is positive). -/
theorem parse_quiz_invariant (html : String) (qs : List QuizQuestion) (q : QuizQuestion)
    (h1 : parse_quiz html = Except.ok qs) (h2 : q ∈ qs) :
    q.options ≠ [] ∧ 0 ≤ q.correct_index
      ∧ q.correct_index < (q.options.length : Int) := by
  rw [parse_quiz] at h1
  obtain ⟨raw, block, hmk⟩ := quizFromBlocks_mem _ _ _ h1 h2
  exact mkQuestion_invariant hmk

/-- Closed instance of C10: a concrete block parses to one question whose
invariant the theorem certifies. -/
theorem parse_quiz_invariant_witness :
    parse_quiz wQuizHtml = Except.ok [wQuizQuestion]
  ∧ (wQuizQuestion.options ≠ [] ∧ 0 ≤ wQuizQuestion.correct_index
      ∧ wQuizQuestion.correct_index < (wQuizQuestion.options.length : Int)) := by
  refine ⟨by rfl, ?_⟩
  exact parse_quiz_invariant wQuizHtml [wQuizQuestion] wQuizQuestion (by rfl) (by decide)

/-! ### C9: individual query failures are tolerated -/

theorem scoutCollectAux_okEmpty (client : String → Except Unit (List Finding)) :
    ∀ (l : List String) (seen : List String) (acc : List Finding),
      scoutCollectAux client l seen acc
        = scoutCollectAux (fun q => match client q with
            | .error _ => .ok []
            | .ok fs => .ok fs) l seen acc := by
  intro l
  induction l with
  | nil => intro seen acc; rfl
  | cons q qs ih =>
    intro seen acc
    cases hq : client q with
    | error e =>
      rw [scoutCollectAux, hq, scoutCollectAux]
      simp only [hq]
      exact ih seen acc
    | ok fs =>
      rw [scoutCollectAux, hq, scoutCollectAux]
      simp only [hq]
      exact ih _ _

theorem pitfallCollectAux_okEmpty (client : String → Except Unit (List Finding))
    (sel_name : String) (ctx : CodeContext) :
    ∀ (l : List String) (seen : List String) (scored : List (Int × Finding)),
      pitfallCollectAux client sel_name ctx l seen scored
        = pitfallCollectAux (fun q => match client q with
            | .error _ => .ok []
            | .ok fs => .ok fs) sel_name ctx l seen scored := by
  intro l
  induction l with
  | nil => intro seen scored; rfl
  | cons q qs ih =>
    intro seen scored
    cases hq : client q with
    | error e =>
      rw [pitfallCollectAux, hq, pitfallCollectAux]
      simp only [hq]
      exact ih seen scored
    | ok fs =>
      rw [pitfallCollectAux, hq, pitfallCollectAux]
      simp only [hq]
      exact ih _ _

/-- Claim C9: in the multi-query loops of the scout report and the pitfall
endpoint, a query whose search call fails is caught and contributes zero
findings: the whole collection behaves exactly as if that query had
returned an empty result, the remaining queries still run, their findings
are still deduplicated and collected, and a result is always produced. -/
theorem per_query_failure_is_empty (client : String → Except Unit (List Finding))
    (queries : List String) (sel_name : String) (ctx : CodeContext) :
    scout_collect client queries
      = scout_collect (fun q => match client q with
          | .error _ => .ok []
          | .ok fs => .ok fs) queries
  ∧ pitfall_collect client queries sel_name ctx
      = pitfall_collect (fun q => match client q with
          | .error _ => .ok []
          | .ok fs => .ok fs) queries sel_name ctx := by
  constructor
  · exact scoutCollectAux_okEmpty client (queries.take 8) [] []
  · exact pitfallCollectAux_okEmpty client sel_name ctx (queries.take 6) [] []

end Diablo
